import Mathlib

/-!
Verification of the template expression resolution engine of the garden
repository: the String Resolver (`resolveTemplateString`), the Tree Resolver
(`resolveTemplateStrings`) and the Reference Collector
(`collectTemplateReferences`), together with the Context lookup capability
and the `$\x7b...\x7d` lexer and expression evaluator they share.

The implementation file of the engine is not part of the source tree here;
only its test suite is.  The definitions below are therefore modelled from
the specification (sections 2-4, 6-8), with the test suite pinning the
concrete error messages and examples.  Numbers are modelled as integers
(every numeric value appearing in the specification and the tests is an
integer).
-/

/-- Modelled from the spec: a primitive configuration value — string, number,
boolean or null (section 3, "Primitive"). -/
inductive Primitive where
  | str (s : String)
  | num (n : Int)
  | bool (b : Bool)
  | null
  deriving DecidableEq, Repr

/-- Modelled from the spec: outcome of a Context key-path lookup
(section 3, "Context"). -/
inductive LookupResult where
  | found (v : Primitive)
  | foundNonPrimitive
  | notFound
  deriving DecidableEq, Repr

/-- Modelled from the spec: a Context is an opaque capability exposing one
operation, path-based lookup (sections 2 and 3).  The engine never constructs
or mutates a Context. -/
def ConfigContext : Type := List String → LookupResult

/-- Modelled from the spec: resolution options; `allowUndefined` defaults to
false (section 3, "Resolution Options"). -/
structure ResolveOpts where
  allowUndefined : Bool := false
  deriving DecidableEq, Repr

/-- Modelled from the spec: the syntax-error conditions of the Lexer/Matcher
and Expression Evaluator (sections 4.1, 4.2, 7). -/
inductive SyntaxErrorKind where
  | unterminated
  | nested
  | unterminatedQuote
  | invalidExpression
  deriving DecidableEq, Repr

/-- Modelled from the spec: the error taxonomy (section 7): syntax errors
(carrying the verbatim offending text), missing-key errors and type errors
(each carrying the dot-joined path). -/
inductive TemplateError where
  | syntaxError (kind : SyntaxErrorKind) (offending : String)
  | missingKey (path : List String)
  | typeError (path : List String)
  deriving DecidableEq, Repr

deriving instance DecidableEq for Except

/-- Dot-join a key path, as in the error messages of the test suite. -/
def dotJoin (path : List String) : String := String.intercalate "." path

/-- Modelled from the spec: the user-visible message of each error, with the
exact texts asserted by the test suite ("Invalid template string: ...",
"Could not find key: ...", "Config value at ... exists but is not a
primitive (string, number, boolean or null)"). -/
def TemplateError.message : TemplateError → String
  | .syntaxError _ off => "Invalid template string: " ++ off
  | .missingKey path => "Could not find key: " ++ dotJoin path
  | .typeError path =>
      "Config value at " ++ dotJoin path ++
        " exists but is not a primitive (string, number, boolean or null)"

/-- Checks whether an error is a syntax error (as opposed to a missing-key or
type error). -/
def TemplateError.isSyntax : TemplateError → Bool
  | .syntaxError _ _ => true
  | _ => false

/-- One piece of a lexed string: literal text, or the inner content of one
template span (the text strictly between the opening and closing braces). -/
inductive StringPart where
  | lit (s : String)
  | tmpl (content : String)
  deriving DecidableEq, Repr

/-- The raw text of a span with content `s`, i.e. the content surrounded by
the opening and closing template braces. -/
def wrapTemplate (s : String) : String := "$\x7b" ++ s ++ "\x7d"

/-- The single-quote character. -/
def squoteChar : Char := Char.ofNat 39

/-- The double-quote character. -/
def dquoteChar : Char := Char.ofNat 34

/-- Lexer scanning mode: outside any span, inside a span, or inside a quoted
literal within a span. -/
inductive ScanMode where
  | outside
  | inSpan
  | inQuote (q : Char)
  deriving DecidableEq, Repr

/-- Modelled from the spec: the Lexer/Matcher (section 4.1).  Scans the
input left to right; `acc` accumulates the current literal or span content
(reversed) and `start` is the suffix of the input beginning at the current
span's opening braces, used verbatim in error reports.  A second unescaped
opening inside a span is the "nested" syntax error; an unclosed span or an
unclosed quote is an "unterminated" syntax error; quoted literals may
contain braces without affecting brace matching. -/
def scanAux : List Char → ScanMode → List Char → List Char →
    Except TemplateError (List StringPart)
  | [], .outside, acc, _ =>
      .ok (if acc.isEmpty then [] else [.lit (String.mk acc.reverse)])
  | [], .inSpan, _, start =>
      .error (.syntaxError .unterminated (String.mk start))
  | [], .inQuote _, _, start =>
      .error (.syntaxError .unterminatedQuote (String.mk start))
  | '$' :: '{' :: rest2, .outside, acc, _ =>
      if acc.isEmpty then scanAux rest2 .inSpan [] ('$' :: '{' :: rest2)
      else
        Except.map (fun ps => .lit (String.mk acc.reverse) :: ps)
          (scanAux rest2 .inSpan [] ('$' :: '{' :: rest2))
  | '$' :: '{' :: _, .inSpan, _, start =>
      .error (.syntaxError .nested (String.mk start))
  | '}' :: rest, .inSpan, acc, _ =>
      Except.map (fun ps => StringPart.tmpl (String.mk acc.reverse) :: ps)
        (scanAux rest .outside [] [])
  | c :: rest, .outside, acc, _ => scanAux rest .outside (c :: acc) []
  | c :: rest, .inSpan, acc, start =>
      if c = squoteChar ∨ c = dquoteChar then
        scanAux rest (.inQuote c) (c :: acc) start
      else scanAux rest .inSpan (c :: acc) start
  | c :: rest, .inQuote q, acc, start =>
      if c = q then scanAux rest .inSpan (c :: acc) start
      else scanAux rest (.inQuote q) (c :: acc) start

/-- Modelled from the spec: the Lexer/Matcher entry point — the list of
non-overlapping template spans of the input together with the surrounding
literal text (section 4.1). -/
def splitTemplate (s : String) : Except TemplateError (List StringPart) :=
  scanAux s.data .outside [] []

/-- True when the char list contains an (unquoted or quoted) occurrence of
the two-character template opening. -/
def hasDollarBrace : List Char → Bool
  | [] => false
  | c :: rest =>
      if c = '$' then
        match rest with
        | '{' :: _ => true
        | _ => hasDollarBrace rest
      else hasDollarBrace rest

/-- True when the string contains the template opening marker at all. -/
def hasTemplate (s : String) : Bool := hasDollarBrace s.data

/-- Modelled from the spec: one alternative of a template expression — a
dotted identifier path or a literal (section 3, "Template Expression";
an expression with a single alternative is an `Identifier` or `Literal`
node, one with two or more is a `Conditional`). -/
inductive Alt where
  | ident (path : List String)
  | lit (v : Primitive)
  deriving DecidableEq, Repr

/-- Modelled from the spec: identifier-token characters
("alphanumeric/underscore-like", section 4.2). -/
def isIdentChar (c : Char) : Bool := c.isAlphanum || c = '_'

/-- Numeric value of a digit string. -/
def natOfDigits (cs : List Char) : Nat :=
  cs.foldl (fun n c => n * 10 + (c.toNat - 48)) 0

/-- Modelled from the spec: classification of a bare token as a boolean,
null or numeric literal, or else a dotted identifier path (section 4.2
grammar: keywords and numbers are single tokens, so only a one-segment
token can be a literal).  The token's segments arrive reversed, with the
current segment's characters also reversed. -/
def identAlt (segs : List String) (cur : List Char) : Alt :=
  let path := (String.mk cur.reverse :: segs).reverse
  match path with
  | [s] =>
      if s = "true" then .lit (.bool true)
      else if s = "false" then .lit (.bool false)
      else if s = "null" then .lit .null
      else if s.data.all Char.isDigit then .lit (.num (natOfDigits s.data))
      else .ident path
  | _ => .ident path

/-- Expression-parser state: expecting an alternative, inside a quoted
literal, inside a dotted identifier token, just after a dot, after a
complete alternative, or after the first bar of the conditional
operator. -/
inductive PState where
  | expectAlt
  | inQuote (q : Char) (acc : List Char)
  | inIdent (segs : List String) (cur : List Char)
  | dotSeg (segs : List String)
  | afterAlt
  | pipeOne
  deriving DecidableEq, Repr

/-- Modelled from the spec: one character step of the expression parser for
the grammar `expr := alt ( "||" alt )*` with quoted-string, numeric,
boolean and null literals and dotted identifiers (section 4.2).  Whitespace
is allowed around alternatives and around the conditional operator. -/
def pstep : PState × List Alt → Char → Except Unit (PState × List Alt)
  | (.expectAlt, alts), c =>
      if c.isWhitespace then .ok (.expectAlt, alts)
      else if c = squoteChar ∨ c = dquoteChar then .ok (.inQuote c [], alts)
      else if isIdentChar c then .ok (.inIdent [] [c], alts)
      else .error ()
  | (.inQuote q acc, alts), c =>
      if c = q then .ok (.afterAlt, .lit (.str (String.mk acc.reverse)) :: alts)
      else .ok (.inQuote q (c :: acc), alts)
  | (.inIdent segs cur, alts), c =>
      if isIdentChar c then .ok (.inIdent segs (c :: cur), alts)
      else if c = '.' then .ok (.dotSeg (String.mk cur.reverse :: segs), alts)
      else if c.isWhitespace then .ok (.afterAlt, identAlt segs cur :: alts)
      else if c = '|' then .ok (.pipeOne, identAlt segs cur :: alts)
      else .error ()
  | (.dotSeg segs, alts), c =>
      if isIdentChar c then .ok (.inIdent segs [c], alts) else .error ()
  | (.afterAlt, alts), c =>
      if c.isWhitespace then .ok (.afterAlt, alts)
      else if c = '|' then .ok (.pipeOne, alts)
      else .error ()
  | (.pipeOne, alts), c =>
      if c = '|' then .ok (.expectAlt, alts) else .error ()

/-- End-of-input action of the expression parser: a trailing identifier
token is finished; an unfinished quote, a dangling dot or operator, or an
empty expression is a syntax error. -/
def pfinish : PState × List Alt → Except Unit (List Alt)
  | (.afterAlt, alts) => .ok alts.reverse
  | (.inIdent segs cur, alts) => .ok (identAlt segs cur :: alts).reverse
  | _ => .error ()

/-- Runs the expression parser over a list of characters from a given
configuration. -/
def parseRun (cfg : PState × List Alt) : List Char → Except Unit (PState × List Alt)
  | [] => .ok cfg
  | c :: cs =>
      match pstep cfg c with
      | .error e => .error e
      | .ok cfg2 => parseRun cfg2 cs

/-- Modelled from the spec: parse the raw inner content of one span into its
ordered list of alternatives (section 4.2). -/
def parseExpr (content : String) : Except Unit (List Alt) :=
  match parseRun (.expectAlt, []) content.data with
  | .error e => .error e
  | .ok cfg => pfinish cfg

/-- Modelled from the spec: evaluation of a single alternative (section
4.2): a literal is always found; an identifier is looked up in the Context,
a non-primitive value is a type error, and a missing key is `undefined`
(represented as `none`) when `allowU` is set and a missing-key error
otherwise. -/
def evalAlt (ctx : ConfigContext) (allowU : Bool) : Alt →
    Except TemplateError (Option Primitive)
  | .lit v => .ok (some v)
  | .ident path =>
      match ctx path with
      | .found v => .ok (some v)
      | .foundNonPrimitive => .error (.typeError path)
      | .notFound => if allowU then .ok none else .error (.missingKey path)

/-- Modelled from the spec: left-to-right short-circuit evaluation of the
alternatives of an expression (section 4.2): the first alternative that is
neither NotFound nor undefined wins; only the last alternative is evaluated
under the caller's `allowUndefined` setting, so an all-NotFound chain
reports the missing-key error of its final alternative. -/
def evalAlts (ctx : ConfigContext) (allowU : Bool) : List Alt →
    Except TemplateError (Option Primitive)
  | [] => .ok none
  | [a] => evalAlt ctx allowU a
  | a :: rest =>
      match evalAlt ctx true a with
      | .error e => .error e
      | .ok (some v) => .ok (some v)
      | .ok none => evalAlts ctx allowU rest

/-- Modelled from the spec: evaluation of one span's raw content — parse,
then evaluate; a malformed expression is a syntax error carrying the
original span text verbatim (section 4.2). -/
def evalSpan (content : String) (ctx : ConfigContext) (allowU : Bool) :
    Except TemplateError (Option Primitive) :=
  match parseExpr content with
  | .error _ => .error (.syntaxError .invalidExpression (wrapTemplate content))
  | .ok alts => evalAlts ctx allowU alts

/-- Modelled from the spec: textual coercion of a resolved value when it is
spliced into surrounding literal text (section 4.3 step 3): null becomes
"null", booleans their lowercase words, numbers their decimal text. -/
def Primitive.toText : Primitive → String
  | .str s => s
  | .num n => toString n
  | .bool true => "true"
  | .bool false => "false"
  | .null => "null"

/-- Textual coercion including the undefined value, which splices as the
empty string (section 4.3 step 3). -/
def coerceText : Option Primitive → String
  | none => ""
  | some p => p.toText

/-- Modelled from the spec: splicing of evaluated spans back into the
surrounding literal text at their original positions, concatenating left to
right (section 4.3 step 3). -/
def resolveParts (ctx : ConfigContext) (allowU : Bool) : List StringPart →
    Except TemplateError String
  | [] => .ok ""
  | .lit s :: rest =>
      Except.map (fun r => s ++ r) (resolveParts ctx allowU rest)
  | .tmpl content :: rest =>
      match evalSpan content ctx allowU with
      | .error e => .error e
      | .ok v => Except.map (fun r => coerceText v ++ r) (resolveParts ctx allowU rest)

/-- Modelled from the spec: the String Resolver (section 4.3).  Lex the
input; when the whole input is exactly one span, return the evaluated
expression's typed result unchanged; otherwise evaluate every span, coerce
to text and splice into the literal text.  A result of `none` is the
undefined value (only possible under `allowUndefined`). -/
def resolveTemplateString (input : String) (ctx : ConfigContext)
    (opts : ResolveOpts) : Except TemplateError (Option Primitive) :=
  match splitTemplate input with
  | .error e => .error e
  | .ok [StringPart.tmpl content] => evalSpan content ctx opts.allowUndefined
  | .ok parts =>
      Except.map (fun s => some (Primitive.str s))
        (resolveParts ctx opts.allowUndefined parts)

mutual
/-- Modelled from the spec: a configuration tree — nested mappings with
string keys, sequences, and scalars; `undef` is the undefined sentinel the
source conflates with an absent key (sections 3 and 9). -/
inductive ConfigValue where
  | str (s : String)
  | num (n : Int)
  | bool (b : Bool)
  | null
  | undef
  | mapping (entries : EntryList)
  | sequence (items : ValueList)
  deriving DecidableEq, Repr
/-- The ordered entries of a mapping node. -/
inductive EntryList where
  | nil
  | cons (key : String) (v : ConfigValue) (rest : EntryList)
  deriving DecidableEq, Repr
/-- The ordered items of a sequence node. -/
inductive ValueList where
  | nil
  | cons (v : ConfigValue) (rest : ValueList)
  deriving DecidableEq, Repr
end

/-- Embedding of a primitive back into a configuration tree. -/
def Primitive.toConfigValue : Primitive → ConfigValue
  | .str s => .str s
  | .num n => .num n
  | .bool b => .bool b
  | .null => .null

/-- Embedding of a String Resolver result into a configuration tree; the
undefined value becomes the undefined sentinel. -/
def resolvedToValue : Option Primitive → ConfigValue
  | none => .undef
  | some p => p.toConfigValue

mutual
/-- Modelled from the spec: the Tree Resolver (section 4.4) — recurse
structurally through mappings and sequences, pass every scalar string
through the String Resolver, leave every other scalar unchanged, and abort
on the first error. -/
def resolveTemplateStrings (t : ConfigValue) (ctx : ConfigContext)
    (opts : ResolveOpts) : Except TemplateError ConfigValue :=
  match t with
  | .str s =>
      match resolveTemplateString s ctx opts with
      | .error e => .error e
      | .ok r => .ok (resolvedToValue r)
  | .mapping es =>
      match resolveTemplateEntries es ctx opts with
      | .error e => .error e
      | .ok es2 => .ok (.mapping es2)
  | .sequence vs =>
      match resolveTemplateItems vs ctx opts with
      | .error e => .error e
      | .ok vs2 => .ok (.sequence vs2)
  | v => .ok v
/-- Tree Resolver, mapping entries: keys are kept, values are resolved in
order. -/
def resolveTemplateEntries (es : EntryList) (ctx : ConfigContext)
    (opts : ResolveOpts) : Except TemplateError EntryList :=
  match es with
  | .nil => .ok .nil
  | .cons k v rest =>
      match resolveTemplateStrings v ctx opts with
      | .error e => .error e
      | .ok v2 =>
          match resolveTemplateEntries rest ctx opts with
          | .error e => .error e
          | .ok rest2 => .ok (.cons k v2 rest2)
/-- Tree Resolver, sequence items: resolved in order. -/
def resolveTemplateItems (vs : ValueList) (ctx : ConfigContext)
    (opts : ResolveOpts) : Except TemplateError ValueList :=
  match vs with
  | .nil => .ok .nil
  | .cons v rest =>
      match resolveTemplateStrings v ctx opts with
      | .error e => .error e
      | .ok v2 =>
          match resolveTemplateItems rest ctx opts with
          | .error e => .error e
          | .ok rest2 => .ok (.cons v2 rest2)
end

/-- Lookup of a key among mapping entries (first match wins). -/
def lookupEntry (k : String) : EntryList → Option ConfigValue
  | .nil => none
  | .cons k2 v rest => if k = k2 then some v else lookupEntry k rest

/-- The primitive view of a tree node, when it is a primitive scalar. -/
def ConfigValue.asPrimitive : ConfigValue → Option Primitive
  | .str s => some (.str s)
  | .num n => some (.num n)
  | .bool b => some (.bool b)
  | .null => some .null
  | _ => none

/-- Modelled from the spec: concrete Context lookup over a configuration
tree (section 3, "Context" invariant): walk nested mapping access segment
by segment; any access through a non-mapping is NotFound; a terminal
non-primitive is FoundNonPrimitive; the undefined sentinel is treated
exactly like an absent key (section 9). -/
def resolveIn : List String → ConfigValue → LookupResult
  | [], t =>
      match t.asPrimitive with
      | some p => .found p
      | none =>
          match t with
          | .undef => .notFound
          | _ => .foundNonPrimitive
  | k :: rest, t =>
      match t with
      | .mapping es =>
          match lookupEntry k es with
          | some v => resolveIn rest v
          | none => .notFound
      | _ => .notFound

/-- The Context exposed by a configuration tree, as the test suite's
TestContext does by assigning the object's fields. -/
def ConfigValue.toContext (t : ConfigValue) : ConfigContext :=
  fun path => resolveIn path t

/-- Modelled from the spec: the identifier paths occurring in a parsed
expression; literal alternatives contribute no references (section 4.5). -/
def refsOfAlts : List Alt → List (List String)
  | [] => []
  | Alt.ident p :: rest => p :: refsOfAlts rest
  | Alt.lit _ :: rest => refsOfAlts rest

/-- References of a lexed string: parse every span and record its
identifier paths; nothing is evaluated. -/
def refsOfParts : List StringPart → Except TemplateError (List (List String))
  | [] => .ok []
  | StringPart.lit _ :: rest => refsOfParts rest
  | StringPart.tmpl content :: rest =>
      match parseExpr content with
      | .error _ => .error (.syntaxError .invalidExpression (wrapTemplate content))
      | .ok alts =>
          match refsOfParts rest with
          | .error e => .error e
          | .ok others => .ok (refsOfAlts alts ++ others)

/-- References of one scalar string: lex, then collect from every span. -/
def refsOfString (s : String) : Except TemplateError (List (List String)) :=
  match splitTemplate s with
  | .error e => .error e
  | .ok parts => refsOfParts parts

mutual
/-- Modelled from the spec: raw traversal of the Reference Collector
(section 4.5) — every identifier path of every span of every scalar string,
in traversal order, before deduplication and sorting.  No Context is
consulted. -/
def collectRaw : ConfigValue → Except TemplateError (List (List String))
  | .str s => refsOfString s
  | .mapping es => collectRawEntries es
  | .sequence vs => collectRawItems vs
  | _ => .ok []
/-- Raw reference traversal of mapping entries. -/
def collectRawEntries : EntryList → Except TemplateError (List (List String))
  | .nil => .ok []
  | .cons _ v rest =>
      match collectRaw v with
      | .error e => .error e
      | .ok refs =>
          match collectRawEntries rest with
          | .error e => .error e
          | .ok others => .ok (refs ++ others)
/-- Raw reference traversal of sequence items. -/
def collectRawItems : ValueList → Except TemplateError (List (List String))
  | .nil => .ok []
  | .cons v rest =>
      match collectRaw v with
      | .error e => .error e
      | .ok refs =>
          match collectRawItems rest with
          | .error e => .error e
          | .ok others => .ok (refs ++ others)
end

/-- Strict lexicographic comparison of char lists by code point. -/
def charsLtB : List Char → List Char → Bool
  | [], [] => false
  | [], _ :: _ => true
  | _ :: _, [] => false
  | c :: cs, d :: ds => if c = d then charsLtB cs ds else decide (c.toNat < d.toNat)

/-- Strict lexicographic comparison of strings. -/
def strLtB (a b : String) : Bool := charsLtB a.data b.data

/-- Modelled from the spec: segment-by-segment lexicographic comparison of
key paths (section 4.5). -/
def pathLtB : List String → List String → Bool
  | [], [] => false
  | [], _ :: _ => true
  | _ :: _, [] => false
  | a :: xs, b :: ys => if a = b then pathLtB xs ys else strLtB a b

/-- Insertion of a path into a strictly sorted list of paths, skipping
duplicates. -/
def insertPath (p : List String) : List (List String) → List (List String)
  | [] => [p]
  | q :: rest =>
      if pathLtB p q then p :: q :: rest
      else if p = q then q :: rest
      else q :: insertPath p rest

/-- Deduplicate and sort a list of paths by repeated sorted insertion. -/
def sortedInsertAll (raws : List (List String)) : List (List String) :=
  raws.foldl (fun acc p => insertPath p acc) []

/-- Modelled from the spec: the Reference Collector (section 4.5) — the
deduplicated set of referenced key paths of a whole configuration tree,
sorted lexicographically segment by segment; it needs no Context and can
only raise syntax errors. -/
def collectTemplateReferences (t : ConfigValue) :
    Except TemplateError (List (List String)) :=
  match collectRaw t with
  | .error e => .error e
  | .ok raws => .ok (sortedInsertAll raws)

mutual
/-- True when no scalar string of the tree contains the template opening
marker. -/
def treeNoTemplate : ConfigValue → Bool
  | .str s => !hasTemplate s
  | .mapping es => entriesNoTemplate es
  | .sequence vs => itemsNoTemplate vs
  | _ => true
/-- Template-freeness of mapping entries. -/
def entriesNoTemplate : EntryList → Bool
  | .nil => true
  | .cons _ v rest => treeNoTemplate v && entriesNoTemplate rest
/-- Template-freeness of sequence items. -/
def itemsNoTemplate : ValueList → Bool
  | .nil => true
  | .cons v rest => treeNoTemplate v && itemsNoTemplate rest
end

mutual
/-- Stated from the spec's words (section 4.4) for the refinement claim
about the Tree Resolver: the output tree has identical shape — the same
mapping keys in the same order and the same sequence length and order —
with every scalar string passed through the String Resolver and every
non-string scalar unchanged. -/
inductive SpecTreeResolution (ctx : ConfigContext) (opts : ResolveOpts) :
    ConfigValue → ConfigValue → Prop where
  | str (s : String) (r : Option Primitive) :
      resolveTemplateString s ctx opts = .ok r →
      SpecTreeResolution ctx opts (.str s) (resolvedToValue r)
  | num (n : Int) : SpecTreeResolution ctx opts (.num n) (.num n)
  | bool (b : Bool) : SpecTreeResolution ctx opts (.bool b) (.bool b)
  | null : SpecTreeResolution ctx opts .null .null
  | undef : SpecTreeResolution ctx opts .undef .undef
  | mapping (es es2 : EntryList) :
      SpecEntriesResolution ctx opts es es2 →
      SpecTreeResolution ctx opts (.mapping es) (.mapping es2)
  | sequence (vs vs2 : ValueList) :
      SpecItemsResolution ctx opts vs vs2 →
      SpecTreeResolution ctx opts (.sequence vs) (.sequence vs2)
/-- Spec-side shape-preserving resolution of mapping entries: same keys,
same order, values resolved pointwise. -/
inductive SpecEntriesResolution (ctx : ConfigContext) (opts : ResolveOpts) :
    EntryList → EntryList → Prop where
  | nil : SpecEntriesResolution ctx opts .nil .nil
  | cons (k : String) (v v2 : ConfigValue) (rest rest2 : EntryList) :
      SpecTreeResolution ctx opts v v2 →
      SpecEntriesResolution ctx opts rest rest2 →
      SpecEntriesResolution ctx opts (.cons k v rest) (.cons k v2 rest2)
/-- Spec-side shape-preserving resolution of sequence items: same length,
same order, items resolved pointwise. -/
inductive SpecItemsResolution (ctx : ConfigContext) (opts : ResolveOpts) :
    ValueList → ValueList → Prop where
  | nil : SpecItemsResolution ctx opts .nil .nil
  | cons (v v2 : ConfigValue) (rest rest2 : ValueList) :
      SpecTreeResolution ctx opts v v2 →
      SpecItemsResolution ctx opts rest rest2 →
      SpecItemsResolution ctx opts (.cons v rest) (.cons v2 rest2)
end

/-! Helper lemmas about the String Resolver pipeline. -/

/-- When the lexer finds exactly one span covering the whole input, the
String Resolver returns the typed evaluation of that span. -/
theorem resolveTemplateString_whole (input content : String)
    (ctx : ConfigContext) (opts : ResolveOpts)
    (h : splitTemplate input = .ok [StringPart.tmpl content]) :
    resolveTemplateString input ctx opts = evalSpan content ctx opts.allowUndefined := by
  unfold resolveTemplateString
  rw [h]

/-- A found alternative evaluates the same under either `allowUndefined`
setting. -/
theorem evalAlt_some_flag (ctx : ConfigContext) (a : Alt) (v : Primitive)
    (b b' : Bool) (h : evalAlt ctx b a = .ok (some v)) :
    evalAlt ctx b' a = .ok (some v) := by
  cases a with
  | lit w => exact h
  | ident path =>
    simp only [evalAlt] at h ⊢
    cases hc : ctx path with
    | found w => rw [hc] at h; exact h
    | foundNonPrimitive => rw [hc] at h; exact absurd h (by simp)
    | notFound => rw [hc] at h; cases b <;> simp at h

/-- Left-to-right short-circuit: the first found alternative wins, whatever
comes after it. -/
theorem evalAlts_first_found (ctx : ConfigContext) (allowU : Bool) :
    ∀ (pre : List Alt) (a : Alt) (post : List Alt) (v : Primitive),
    (∀ b ∈ pre, evalAlt ctx true b = .ok none) →
    evalAlt ctx true a = .ok (some v) →
    evalAlts ctx allowU (pre ++ a :: post) = .ok (some v) := by
  intro pre
  induction pre with
  | nil =>
    intro a post v _ ha
    cases post with
    | nil => exact evalAlt_some_flag ctx a v true allowU ha
    | cons b rest => simp only [List.nil_append, evalAlts, ha]
  | cons p pre2 ih =>
    intro a post v hpre ha
    have hp : evalAlt ctx true p = .ok none := hpre p (by simp)
    rcases hL : pre2 ++ a :: post with _ | ⟨q, qs⟩
    · exact absurd hL (by simp)
    · have : evalAlts ctx allowU ((p :: pre2) ++ a :: post) =
          evalAlts ctx allowU (pre2 ++ a :: post) := by
        rw [List.cons_append, hL]
        simp only [evalAlts, hp]
      rw [this]
      exact ih a post v (fun b hb => hpre b (by simp [hb])) ha

/-- An all-NotFound chain yields undefined under `allowUndefined` and the
missing-key error of its final alternative otherwise. -/
theorem evalAlts_all_notFound (ctx : ConfigContext) (allowU : Bool) :
    ∀ (alts : List Alt) (p : List String),
    (∀ b ∈ alts, ∃ q, b = Alt.ident q ∧ ctx q = .notFound) →
    alts.getLast? = some (Alt.ident p) →
    evalAlts ctx allowU alts =
      (if allowU then .ok none else .error (.missingKey p)) := by
  intro alts
  induction alts with
  | nil => intro p _ hl; exact absurd hl (by simp)
  | cons a rest ih =>
    intro p hall hl
    rcases hall a (by simp) with ⟨q, haq, hq⟩
    subst haq
    cases rest with
    | nil =>
      simp only [List.getLast?_singleton, Option.some.injEq, Alt.ident.injEq] at hl
      subst hl
      simp [evalAlts, evalAlt, hq]
    | cons b rest2 =>
      have h1 : evalAlt ctx true (Alt.ident q) = .ok none := by
        simp [evalAlt, hq]
      simp only [evalAlts, h1]
      exact ih p (fun b hb => hall b (by simp [hb]))
        (by rw [← hl]; exact (List.getLast?_cons_cons ..).symm)

/-- A span whose content parses evaluates by short-circuit over its parsed
alternatives. -/
theorem evalSpan_parse (content : String) (ctx : ConfigContext) (u : Bool)
    (alts : List Alt) (h : parseExpr content = .ok alts) :
    evalSpan content ctx u = evalAlts ctx u alts := by
  unfold evalSpan
  rw [h]

/-- C1: for every input string that is exactly one template span with no
surrounding literal text, `resolveTemplateString` returns the evaluated
expression's typed result unchanged — witnessed generally (any primitive
found for `a` comes back as that very primitive) and for the literal
expressions 123, true, false and null, which come back as a number, a
boolean and null rather than as strings. -/
theorem whole_string_template_preserves_type :
    (∀ (input content : String) (ctx : ConfigContext) (opts : ResolveOpts),
      splitTemplate input = .ok [StringPart.tmpl content] →
      resolveTemplateString input ctx opts = evalSpan content ctx opts.allowUndefined)
    ∧ (∀ (ctx : ConfigContext) (v : Primitive),
      ctx ["a"] = .found v →
      resolveTemplateString (wrapTemplate "a") ctx {} = .ok (some v))
    ∧ resolveTemplateString (wrapTemplate "123")
        (ConfigValue.toContext (.mapping .nil)) {} = .ok (some (.num 123))
    ∧ resolveTemplateString (wrapTemplate "true")
        (ConfigValue.toContext (.mapping .nil)) {} = .ok (some (.bool true))
    ∧ resolveTemplateString (wrapTemplate "false")
        (ConfigValue.toContext (.mapping .nil)) {} = .ok (some (.bool false))
    ∧ resolveTemplateString (wrapTemplate "null")
        (ConfigValue.toContext (.mapping .nil)) {} = .ok (some .null) := by
  refine ⟨fun input content ctx opts h => resolveTemplateString_whole input content ctx opts h,
    fun ctx v h => ?_, by decide, by decide, by decide, by decide⟩
  rw [resolveTemplateString_whole (wrapTemplate "a") "a" ctx {} (by decide)]
  rw [evalSpan_parse "a" ctx false [Alt.ident ["a"]] (by decide)]
  simp only [evalAlts, evalAlt]
  rw [h]

/-- Witness for C1: the typed pass-through at a concrete context where `a`
is the number 100. -/
theorem whole_string_template_preserves_type_witness :
    resolveTemplateString (wrapTemplate "a")
      (ConfigValue.toContext (.mapping (.cons "a" (.num 100) .nil))) {} =
      .ok (some (.num 100)) :=
  whole_string_template_preserves_type.2.1
    (ConfigValue.toContext (.mapping (.cons "a" (.num 100) .nil)))
    (.num 100) (by decide)

/-- C2: a conditional chain evaluates its alternatives left to right and
returns the first alternative that is found, regardless of what the later
alternatives would do (they are never evaluated past the winner); literal
alternatives always count as found. -/
theorem conditional_short_circuit :
    (∀ (input content : String) (ctx : ConfigContext) (opts : ResolveOpts)
       (pre post : List Alt) (a : Alt) (v : Primitive),
      splitTemplate input = .ok [StringPart.tmpl content] →
      parseExpr content = .ok (pre ++ a :: post) →
      2 ≤ (pre ++ a :: post).length →
      (∀ b ∈ pre, evalAlt ctx true b = .ok none) →
      evalAlt ctx true a = .ok (some v) →
      resolveTemplateString input ctx opts = .ok (some v))
    ∧ (∀ (ctx : ConfigContext) (u : Bool) (v : Primitive),
      evalAlt ctx u (.lit v) = .ok (some v)) := by
  refine ⟨fun input content ctx opts pre post a v hsplit hparse _ hpre ha => ?_,
    fun ctx u v => rfl⟩
  rw [resolveTemplateString_whole input content ctx opts hsplit]
  rw [evalSpan_parse content ctx opts.allowUndefined (pre ++ a :: post) hparse]
  exact evalAlts_first_found ctx opts.allowUndefined pre a post v hpre ha

/-- Witness for C2: the chain resolving its second alternative after the
first is not found, at a concrete context where only `b` is defined. -/
theorem conditional_short_circuit_witness :
    resolveTemplateString (wrapTemplate "a || b")
      (ConfigValue.toContext (.mapping (.cons "b" (.str "abc") .nil))) {} =
      .ok (some (.str "abc")) :=
  conditional_short_circuit.1 (wrapTemplate "a || b") "a || b"
    (ConfigValue.toContext (.mapping (.cons "b" (.str "abc") .nil))) {}
    [Alt.ident ["a"]] [] (Alt.ident ["b"]) (.str "abc")
    (by decide) (by decide) (by decide)
    (by intro b hb; simp at hb; subst hb; decide) (by decide)

/-- C4: an identifier whose lookup is NotFound — or a conditional chain
whose alternatives are all NotFound — fails with the missing-key error
"Could not find key: " followed by the dot-joined path when
`allowUndefined` is false, and yields undefined when it is true. -/
theorem missing_key_error_behavior :
    (∀ (input content : String) (ctx : ConfigContext) (opts : ResolveOpts)
       (alts : List Alt) (p : List String),
      splitTemplate input = .ok [StringPart.tmpl content] →
      parseExpr content = .ok alts →
      (∀ b ∈ alts, ∃ q, b = Alt.ident q ∧ ctx q = .notFound) →
      alts.getLast? = some (Alt.ident p) →
      resolveTemplateString input ctx opts =
        (if opts.allowUndefined then .ok none else .error (.missingKey p)))
    ∧ (∀ p, (TemplateError.missingKey p).message = "Could not find key: " ++ dotJoin p)
    ∧ resolveTemplateString (wrapTemplate "some.other")
        (ConfigValue.toContext (.mapping (.cons "some" (.mapping .nil) .nil))) {} =
        .error (.missingKey ["some", "other"])
    ∧ (TemplateError.missingKey ["some", "other"]).message = "Could not find key: some.other"
    ∧ resolveTemplateString (wrapTemplate "some")
        (ConfigValue.toContext (.mapping .nil)) ⟨true⟩ = .ok none := by
  refine ⟨fun input content ctx opts alts p hsplit hparse hall hlast => ?_,
    fun p => rfl, by decide, by decide, by decide⟩
  rw [resolveTemplateString_whole input content ctx opts hsplit]
  rw [evalSpan_parse content ctx opts.allowUndefined alts hparse]
  exact evalAlts_all_notFound ctx opts.allowUndefined alts p hall hlast

/-- Witness for C4: the missing nested key of the test suite, with the exact
error and message. -/
theorem missing_key_error_behavior_witness :
    resolveTemplateString (wrapTemplate "some.other")
      (ConfigValue.toContext (.mapping (.cons "some" (.mapping .nil) .nil))) {} =
      (if ({} : ResolveOpts).allowUndefined then .ok none
        else .error (.missingKey ["some", "other"])) :=
  missing_key_error_behavior.1 (wrapTemplate "some.other") "some.other"
    (ConfigValue.toContext (.mapping (.cons "some" (.mapping .nil) .nil))) {}
    [Alt.ident ["some", "other"]] ["some", "other"]
    (by decide) (by decide)
    (by intro b hb; simp at hb; subst hb; exact ⟨["some", "other"], rfl, by decide⟩)
    (by decide)

/-- C7: an identifier whose lookup finds a non-primitive fails with the type
error "Config value at \<path> exists but is not a primitive (string,
number, boolean or null)". -/
theorem non_primitive_type_error :
    (∀ (input content : String) (ctx : ConfigContext) (opts : ResolveOpts)
       (p : List String),
      splitTemplate input = .ok [StringPart.tmpl content] →
      parseExpr content = .ok [Alt.ident p] →
      ctx p = .foundNonPrimitive →
      resolveTemplateString input ctx opts = .error (.typeError p))
    ∧ (∀ p, (TemplateError.typeError p).message =
        "Config value at " ++ dotJoin p ++
          " exists but is not a primitive (string, number, boolean or null)")
    ∧ resolveTemplateString (wrapTemplate "some")
        (ConfigValue.toContext (.mapping (.cons "some" (.mapping .nil) .nil))) {} =
        .error (.typeError ["some"])
    ∧ (TemplateError.typeError ["some"]).message =
        "Config value at some exists but is not a primitive (string, number, boolean or null)" := by
  refine ⟨fun input content ctx opts p hsplit hparse hctx => ?_,
    fun p => rfl, by decide, by decide⟩
  rw [resolveTemplateString_whole input content ctx opts hsplit]
  rw [evalSpan_parse content ctx opts.allowUndefined [Alt.ident p] hparse]
  simp only [evalAlts, evalAlt]
  rw [hctx]

/-- Witness for C7: the test suite's empty-mapping value for `some`. -/
theorem non_primitive_type_error_witness :
    resolveTemplateString (wrapTemplate "some")
      (ConfigValue.toContext (.mapping (.cons "some" (.mapping .nil) .nil))) {} =
      .error (.typeError ["some"]) :=
  non_primitive_type_error.1 (wrapTemplate "some") "some"
    (ConfigValue.toContext (.mapping (.cons "some" (.mapping .nil) .nil))) {}
    ["some"] (by decide) (by decide) (by decide)

/-- Outside any span, the lexer never reads the recorded span start. -/
theorem scanAux_outside_start_irrel (cs acc x y : List Char) :
    scanAux cs .outside acc x = scanAux cs .outside acc y := by
  cases cs with
  | nil => simp [scanAux]
  | cons c rest =>
    by_cases hc : c = '$'
    · subst hc
      cases rest with
      | nil => simp [scanAux]
      | cons d rest2 =>
        by_cases hd : d = '{'
        · subst hd; simp [scanAux]
        · simp [scanAux, hd]
    · simp [scanAux, hc]

/-- Scanning template-free text outside a span accumulates it as one
literal. -/
theorem scanAux_outside_noBrace : ∀ (cs acc x : List Char),
    hasDollarBrace cs = false →
    scanAux cs .outside acc x =
      .ok (if (acc.reverse ++ cs).isEmpty then []
        else [.lit (String.mk (acc.reverse ++ cs))]) := by
  intro cs
  induction cs with
  | nil =>
    intro acc x _
    rcases acc with _ | ⟨a, as⟩
    · simp [scanAux]
    · simp [scanAux, List.isEmpty_iff]
  | cons c rest ih =>
    intro acc x h
    by_cases hc : c = '$'
    · subst hc
      rcases rest with _ | ⟨d, rest2⟩
      · rw [show scanAux ['$'] ScanMode.outside acc x =
            scanAux [] ScanMode.outside ('$' :: acc) [] from by simp [scanAux]]
        simp [scanAux, List.isEmpty_iff]
      · by_cases hd : d = '{'
        · subst hd; simp [hasDollarBrace] at h
        · have h2 : hasDollarBrace (d :: rest2) = false := by
            simpa [hasDollarBrace, hd] using h
          rw [show scanAux ('$' :: d :: rest2) ScanMode.outside acc x =
              scanAux (d :: rest2) ScanMode.outside ('$' :: acc) [] from by
            simp [scanAux, hd]]
          rw [ih ('$' :: acc) [] h2]
          simp
    · have h2 : hasDollarBrace rest = false := by simpa [hasDollarBrace, hc] using h
      rw [show scanAux (c :: rest) ScanMode.outside acc x =
          scanAux rest ScanMode.outside (c :: acc) [] from by simp [scanAux, hc]]
      rw [ih (c :: acc) [] h2]
      simp

/-- Scanning a template-free literal prefix before text that starts with a
dollar sign just accumulates the prefix. -/
theorem scanAux_outside_append : ∀ (cs rest acc x : List Char),
    hasDollarBrace cs = false → rest.head? = some '$' →
    scanAux (cs ++ rest) .outside acc x =
      scanAux rest .outside (cs.reverse ++ acc) [] := by
  intro cs
  induction cs with
  | nil =>
    intro rest acc x _ _
    simp only [List.nil_append, List.reverse_nil]
    exact scanAux_outside_start_irrel rest acc x []
  | cons c cs2 ih =>
    intro rest acc x h hr
    by_cases hc : c = '$'
    · subst hc
      rcases cs2 with _ | ⟨d, cs3⟩
      · rcases rest with _ | ⟨r, rs⟩
        · simp at hr
        · have hr2 : r = '$' := by simpa using hr
          subst hr2
          rw [show ['$'] ++ '$' :: rs = '$' :: '$' :: rs from rfl]
          rw [show scanAux ('$' :: '$' :: rs) ScanMode.outside acc x =
              scanAux ('$' :: rs) ScanMode.outside ('$' :: acc) [] from by
            simp [scanAux]]
          simp
      · by_cases hd : d = '{'
        · subst hd; simp [hasDollarBrace] at h
        · have h2 : hasDollarBrace (d :: cs3) = false := by
            simpa [hasDollarBrace, hd] using h
          rw [show ('$' :: d :: cs3) ++ rest = '$' :: d :: (cs3 ++ rest) from rfl]
          rw [show scanAux ('$' :: d :: (cs3 ++ rest)) ScanMode.outside acc x =
              scanAux (d :: (cs3 ++ rest)) ScanMode.outside ('$' :: acc) [] from by
            simp [scanAux, hd]]
          rw [show d :: (cs3 ++ rest) = (d :: cs3) ++ rest from rfl]
          rw [ih rest ('$' :: acc) [] h2 hr]
          simp
    · have h2 : hasDollarBrace cs2 = false := by simpa [hasDollarBrace, hc] using h
      rw [show (c :: cs2) ++ rest = c :: (cs2 ++ rest) from rfl]
      rw [show scanAux (c :: (cs2 ++ rest)) ScanMode.outside acc x =
          scanAux (cs2 ++ rest) ScanMode.outside (c :: acc) [] from by
        simp [scanAux, hc]]
      rw [ih rest (c :: acc) [] h2 hr]
      simp

/-- A string without the template opening marker resolves to itself. -/
theorem resolveTemplateString_noTemplate (s : String) (ctx : ConfigContext)
    (opts : ResolveOpts) (h : hasTemplate s = false) :
    resolveTemplateString s ctx opts = .ok (some (.str s)) := by
  obtain ⟨sd⟩ := s
  unfold resolveTemplateString splitTemplate
  rw [scanAux_outside_noBrace sd [] [] h]
  rcases sd with _ | ⟨c, cs⟩
  · rfl
  · simp [resolveParts, Except.map]

/-- A single identifier span embedded in template-free literal text
resolves to the surrounding text with the found value's textual coercion
spliced in at the span's position. -/
theorem resolve_embedded_span (pre suf : String) (ctx : ConfigContext)
    (opts : ResolveOpts) (v : Primitive)
    (hpre : hasTemplate pre = false) (hsuf : hasTemplate suf = false)
    (hne : ¬(pre = "" ∧ suf = "")) (hctx : ctx ["a"] = .found v) :
    resolveTemplateString (pre ++ wrapTemplate "a" ++ suf) ctx opts =
      .ok (some (.str (pre ++ Primitive.toText v ++ suf))) := by
  obtain ⟨pd⟩ := pre
  obtain ⟨sd⟩ := suf
  have hev : evalSpan "a" ctx opts.allowUndefined = .ok (some v) := by
    rw [evalSpan_parse "a" ctx _ [Alt.ident ["a"]] (by decide)]
    simp only [evalAlts, evalAlt]
    rw [hctx]
  have hparts : splitTemplate (String.mk pd ++ wrapTemplate "a" ++ String.mk sd) =
      .ok ((if pd.isEmpty then [] else [StringPart.lit (String.mk pd)]) ++
        (StringPart.tmpl "a" ::
          (if sd.isEmpty then [] else [StringPart.lit (String.mk sd)]))) := by
    unfold splitTemplate
    rw [show (String.mk pd ++ wrapTemplate "a" ++ String.mk sd).data =
        pd ++ ('$' :: '{' :: 'a' :: '}' :: sd) from by simp [wrapTemplate]]
    rw [scanAux_outside_append pd ('$' :: '{' :: 'a' :: '}' :: sd) [] [] hpre rfl]
    rw [List.append_nil]
    rw [show scanAux ('$' :: '{' :: 'a' :: '}' :: sd) ScanMode.outside pd.reverse [] =
        (if pd.reverse.isEmpty then
          scanAux ('a' :: '}' :: sd) ScanMode.inSpan []
            ('$' :: '{' :: 'a' :: '}' :: sd)
        else Except.map (fun ps => .lit (String.mk pd.reverse.reverse) :: ps)
          (scanAux ('a' :: '}' :: sd) ScanMode.inSpan []
            ('$' :: '{' :: 'a' :: '}' :: sd))) from by simp [scanAux]]
    rw [show scanAux ('a' :: '}' :: sd) ScanMode.inSpan []
        ('$' :: '{' :: 'a' :: '}' :: sd) =
        scanAux ('}' :: sd) ScanMode.inSpan ['a']
          ('$' :: '{' :: 'a' :: '}' :: sd) from by
      simp [scanAux, squoteChar, dquoteChar]]
    rw [show scanAux ('}' :: sd) ScanMode.inSpan ['a']
        ('$' :: '{' :: 'a' :: '}' :: sd) =
        Except.map (fun ps => StringPart.tmpl (String.mk ['a'].reverse) :: ps)
          (scanAux sd ScanMode.outside [] []) from by simp [scanAux]]
    rw [scanAux_outside_noBrace sd [] [] hsuf]
    rcases pd with _ | ⟨p0, ps⟩ <;> rcases sd with _ | ⟨s0, ss⟩ <;>
      simp [Except.map]
  unfold resolveTemplateString
  rw [hparts]
  rcases pd with _ | ⟨p0, ps⟩
  · rcases sd with _ | ⟨s0, ss⟩
    · exact absurd ⟨rfl, rfl⟩ hne
    · simp only [List.isEmpty_nil, List.isEmpty_cons, if_true, if_false,
        Bool.false_eq_true, List.nil_append]
      simp [resolveParts, hev, Except.map, coerceText]
  · rcases sd with _ | ⟨s0, ss⟩
    · simp only [List.isEmpty_nil, List.isEmpty_cons, if_true, if_false,
        Bool.false_eq_true]
      simp [resolveParts, hev, Except.map, coerceText]
    · simp only [List.isEmpty_cons, if_false, Bool.false_eq_true]
      simp [resolveParts, hev, Except.map, coerceText]
      exact String.ext (by simp)

/-- C3: spans embedded in literal text (or multiple spans) are coerced to
their textual representation — null to "null", booleans to their lowercase
words, numbers to decimal text — and spliced into the surrounding literal
text at the span's position, left to right. -/
theorem embedded_template_coerces_text :
    (∀ (pre suf : String) (ctx : ConfigContext) (opts : ResolveOpts) (v : Primitive),
      hasTemplate pre = false → hasTemplate suf = false →
      ¬(pre = "" ∧ suf = "") → ctx ["a"] = .found v →
      resolveTemplateString (pre ++ wrapTemplate "a" ++ suf) ctx opts =
        .ok (some (.str (pre ++ Primitive.toText v ++ suf))))
    ∧ Primitive.toText .null = "null"
    ∧ Primitive.toText (.bool true) = "true"
    ∧ Primitive.toText (.bool false) = "false"
    ∧ Primitive.toText (.num 100) = "100"
    ∧ resolveTemplateString ("foo-" ++ wrapTemplate "a")
        (ConfigValue.toContext (.mapping (.cons "a" (.num 100) .nil))) {} =
        .ok (some (.str "foo-100"))
    ∧ resolveTemplateString ("foo-" ++ wrapTemplate "a")
        (ConfigValue.toContext (.mapping (.cons "a" .null .nil))) {} =
        .ok (some (.str "foo-null"))
    ∧ resolveTemplateString (wrapTemplate "a" ++ wrapTemplate "b")
        (ConfigValue.toContext
          (.mapping (.cons "a" (.str "value") (.cons "b" (.str "other") .nil)))) {} =
        .ok (some (.str "valueother")) :=
  ⟨resolve_embedded_span, rfl, rfl, rfl, by decide, by decide, by decide, by decide⟩

/-- Witness for C3: a number spliced into a literal shell at a concrete
context. -/
theorem embedded_template_coerces_text_witness :
    resolveTemplateString ("foo-" ++ wrapTemplate "a" ++ "")
      (ConfigValue.toContext (.mapping (.cons "a" (.num 100) .nil))) {} =
      .ok (some (.str ("foo-" ++ Primitive.toText (.num 100) ++ ""))) :=
  embedded_template_coerces_text.1 "foo-" ""
    (ConfigValue.toContext (.mapping (.cons "a" (.num 100) .nil))) {}
    (.num 100) (by decide) (by decide) (by decide) (by decide)

mutual
/-- A tree without templates resolves to itself. -/
theorem treeNoTemplate_resolve (t : ConfigValue) (ctx : ConfigContext)
    (opts : ResolveOpts) (h : treeNoTemplate t = true) :
    resolveTemplateStrings t ctx opts = .ok t := by
  cases t with
  | str s =>
    have hs : hasTemplate s = false := by
      have := h
      simp only [treeNoTemplate, Bool.not_eq_eq_eq_not, Bool.not_true] at this
      exact this
    simp [resolveTemplateStrings,
      resolveTemplateString_noTemplate s ctx opts hs, resolvedToValue,
      Primitive.toConfigValue]
  | num n => rfl
  | bool b => rfl
  | null => rfl
  | undef => rfl
  | mapping es =>
    have h2 : entriesNoTemplate es = true := by
      simpa [treeNoTemplate] using h
    simp [resolveTemplateStrings, entriesNoTemplate_resolve es ctx opts h2]
  | sequence vs =>
    have h2 : itemsNoTemplate vs = true := by
      simpa [treeNoTemplate] using h
    simp [resolveTemplateStrings, itemsNoTemplate_resolve vs ctx opts h2]
/-- Mapping entries without templates resolve to themselves. -/
theorem entriesNoTemplate_resolve (es : EntryList) (ctx : ConfigContext)
    (opts : ResolveOpts) (h : entriesNoTemplate es = true) :
    resolveTemplateEntries es ctx opts = .ok es := by
  cases es with
  | nil => rfl
  | cons k v rest =>
    have h1 : treeNoTemplate v = true := by
      have := h
      simp only [entriesNoTemplate, Bool.and_eq_true] at this
      exact this.1
    have h2 : entriesNoTemplate rest = true := by
      have := h
      simp only [entriesNoTemplate, Bool.and_eq_true] at this
      exact this.2
    simp [resolveTemplateEntries, treeNoTemplate_resolve v ctx opts h1,
      entriesNoTemplate_resolve rest ctx opts h2]
/-- Sequence items without templates resolve to themselves. -/
theorem itemsNoTemplate_resolve (vs : ValueList) (ctx : ConfigContext)
    (opts : ResolveOpts) (h : itemsNoTemplate vs = true) :
    resolveTemplateItems vs ctx opts = .ok vs := by
  cases vs with
  | nil => rfl
  | cons v rest =>
    have h1 : treeNoTemplate v = true := by
      have := h
      simp only [itemsNoTemplate, Bool.and_eq_true] at this
      exact this.1
    have h2 : itemsNoTemplate rest = true := by
      have := h
      simp only [itemsNoTemplate, Bool.and_eq_true] at this
      exact this.2
    simp [resolveTemplateItems, treeNoTemplate_resolve v ctx opts h1,
      itemsNoTemplate_resolve rest ctx opts h2]
end

/-- C9 (amended): resolution is the identity on template-free strings and
trees, and a second application is a no-op whenever the first application's
result contains no template marker.  (Unconditional idempotence fails; see
the counterexample.) -/
theorem resolution_noop_on_template_free :
    (∀ (s : String) (ctx : ConfigContext) (opts : ResolveOpts),
      hasTemplate s = false →
      resolveTemplateString s ctx opts = .ok (some (.str s)))
    ∧ (∀ (t : ConfigValue) (ctx : ConfigContext) (opts : ResolveOpts),
      treeNoTemplate t = true →
      resolveTemplateStrings t ctx opts = .ok t)
    ∧ (∀ (t t2 : ConfigValue) (ctx : ConfigContext) (opts : ResolveOpts),
      resolveTemplateStrings t ctx opts = .ok t2 →
      treeNoTemplate t2 = true →
      resolveTemplateStrings t2 ctx opts = .ok t2) :=
  ⟨resolveTemplateString_noTemplate, treeNoTemplate_resolve,
    fun _ t2 ctx opts _ h2 => treeNoTemplate_resolve t2 ctx opts h2⟩

/-- Witness for C9 (amended): the identity law at the test suite's
template-free string and a template-free tree. -/
theorem resolution_noop_on_template_free_witness :
    resolveTemplateString "somestring" (ConfigValue.toContext (.mapping .nil)) {} =
      .ok (some (.str "somestring")) :=
  resolution_noop_on_template_free.1 "somestring"
    (ConfigValue.toContext (.mapping .nil)) {} (by decide)

/-- Counterexample to C9 as stated: applying `resolveTemplateStrings` a
second time to the result of a successful first application does not always
yield the same result.  With context \x7ba: "$\x7bb\x7d", b: "hi"\x7d the
tree \x7bx: "$\x7ba\x7d"\x7d first resolves to \x7bx: "$\x7bb\x7d"\x7d,
whose second resolution is \x7bx: "hi"\x7d, a different tree. -/
theorem resolve_twice_differs :
    resolveTemplateStrings (.mapping (.cons "x" (.str (wrapTemplate "a")) .nil))
        (ConfigValue.toContext (.mapping (.cons "a" (.str (wrapTemplate "b"))
          (.cons "b" (.str "hi") .nil)))) {} =
      .ok (.mapping (.cons "x" (.str (wrapTemplate "b")) .nil))
    ∧ resolveTemplateStrings (.mapping (.cons "x" (.str (wrapTemplate "b")) .nil))
        (ConfigValue.toContext (.mapping (.cons "a" (.str (wrapTemplate "b"))
          (.cons "b" (.str "hi") .nil)))) {} =
      .ok (.mapping (.cons "x" (.str "hi") .nil))
    ∧ ConfigValue.mapping (.cons "x" (.str "hi") .nil) ≠
        .mapping (.cons "x" (.str (wrapTemplate "b")) .nil) :=
  ⟨by decide, by decide, by decide⟩

mutual
/-- Every successful tree resolution satisfies the spec's shape-preserving
contract. -/
theorem resolveTemplateStrings_sound (t t2 : ConfigValue) (ctx : ConfigContext)
    (opts : ResolveOpts) (h : resolveTemplateStrings t ctx opts = .ok t2) :
    SpecTreeResolution ctx opts t t2 := by
  cases t with
  | str s =>
    simp only [resolveTemplateStrings] at h
    cases hr : resolveTemplateString s ctx opts with
    | error e => rw [hr] at h; exact absurd h (by simp)
    | ok r =>
      rw [hr] at h
      have h2 : resolvedToValue r = t2 := by injection h
      rw [← h2]
      exact .str s r hr
  | num n =>
    simp only [resolveTemplateStrings] at h
    have h2 : ConfigValue.num n = t2 := by injection h
    rw [← h2]; exact .num n
  | bool b =>
    simp only [resolveTemplateStrings] at h
    have h2 : ConfigValue.bool b = t2 := by injection h
    rw [← h2]; exact .bool b
  | null =>
    simp only [resolveTemplateStrings] at h
    have h2 : ConfigValue.null = t2 := by injection h
    rw [← h2]; exact .null
  | undef =>
    simp only [resolveTemplateStrings] at h
    have h2 : ConfigValue.undef = t2 := by injection h
    rw [← h2]; exact .undef
  | mapping es =>
    simp only [resolveTemplateStrings] at h
    cases hr : resolveTemplateEntries es ctx opts with
    | error e => rw [hr] at h; exact absurd h (by simp)
    | ok es2 =>
      rw [hr] at h
      have h2 : ConfigValue.mapping es2 = t2 := by injection h
      rw [← h2]
      exact .mapping es es2 (resolveTemplateEntries_sound es es2 ctx opts hr)
  | sequence vs =>
    simp only [resolveTemplateStrings] at h
    cases hr : resolveTemplateItems vs ctx opts with
    | error e => rw [hr] at h; exact absurd h (by simp)
    | ok vs2 =>
      rw [hr] at h
      have h2 : ConfigValue.sequence vs2 = t2 := by injection h
      rw [← h2]
      exact .sequence vs vs2 (resolveTemplateItems_sound vs vs2 ctx opts hr)
/-- Entry lists: successful resolution keeps keys and order and resolves
values pointwise. -/
theorem resolveTemplateEntries_sound (es es2 : EntryList) (ctx : ConfigContext)
    (opts : ResolveOpts) (h : resolveTemplateEntries es ctx opts = .ok es2) :
    SpecEntriesResolution ctx opts es es2 := by
  cases es with
  | nil =>
    simp only [resolveTemplateEntries] at h
    have h2 : EntryList.nil = es2 := by injection h
    rw [← h2]; exact .nil
  | cons k v rest =>
    simp only [resolveTemplateEntries] at h
    cases hv : resolveTemplateStrings v ctx opts with
    | error e => rw [hv] at h; exact absurd h (by simp)
    | ok v2 =>
      rw [hv] at h
      cases hrest : resolveTemplateEntries rest ctx opts with
      | error e => rw [hrest] at h; exact absurd h (by simp)
      | ok rest2 =>
        rw [hrest] at h
        have h2 : EntryList.cons k v2 rest2 = es2 := by injection h
        rw [← h2]
        exact .cons k v v2 rest rest2
          (resolveTemplateStrings_sound v v2 ctx opts hv)
          (resolveTemplateEntries_sound rest rest2 ctx opts hrest)
/-- Item lists: successful resolution keeps length and order and resolves
items pointwise. -/
theorem resolveTemplateItems_sound (vs vs2 : ValueList) (ctx : ConfigContext)
    (opts : ResolveOpts) (h : resolveTemplateItems vs ctx opts = .ok vs2) :
    SpecItemsResolution ctx opts vs vs2 := by
  cases vs with
  | nil =>
    simp only [resolveTemplateItems] at h
    have h2 : ValueList.nil = vs2 := by injection h
    rw [← h2]; exact .nil
  | cons v rest =>
    simp only [resolveTemplateItems] at h
    cases hv : resolveTemplateStrings v ctx opts with
    | error e => rw [hv] at h; exact absurd h (by simp)
    | ok v2 =>
      rw [hv] at h
      cases hrest : resolveTemplateItems rest ctx opts with
      | error e => rw [hrest] at h; exact absurd h (by simp)
      | ok rest2 =>
        rw [hrest] at h
        have h2 : ValueList.cons v2 rest2 = vs2 := by injection h
        rw [← h2]
        exact .cons v v2 rest rest2
          (resolveTemplateStrings_sound v v2 ctx opts hv)
          (resolveTemplateItems_sound rest rest2 ctx opts hrest)
end

/-- C8: `resolveTemplateStrings` returns a tree of identical shape — the
same mapping keys in the same order and the same sequence lengths and
order — with every scalar string passed through the String Resolver, every
non-string scalar unchanged, and template-free strings unchanged; shown on
the test suite's example object as well. -/
theorem tree_resolution_preserves_shape :
    (∀ (t t2 : ConfigValue) (ctx : ConfigContext) (opts : ResolveOpts),
      resolveTemplateStrings t ctx opts = .ok t2 →
      SpecTreeResolution ctx opts t t2)
    ∧ (∀ (s : String) (ctx : ConfigContext) (opts : ResolveOpts),
      hasTemplate s = false →
      resolveTemplateStrings (.str s) ctx opts = .ok (.str s))
    ∧ resolveTemplateStrings
        (.mapping (.cons "some" (.str (wrapTemplate "key"))
          (.cons "other" (.mapping (.cons "nested" (.str (wrapTemplate "something"))
            (.cons "noTemplate" (.str "at-all") .nil))) .nil)))
        (ConfigValue.toContext
          (.mapping (.cons "key" (.str "value") (.cons "something" (.str "else") .nil))))
        {} =
        .ok (.mapping (.cons "some" (.str "value")
          (.cons "other" (.mapping (.cons "nested" (.str "else")
            (.cons "noTemplate" (.str "at-all") .nil))) .nil))) := by
  refine ⟨resolveTemplateStrings_sound, fun s ctx opts hs => ?_, by decide⟩
  exact treeNoTemplate_resolve (.str s) ctx opts (by simpa [treeNoTemplate] using hs)

/-- Witness for C8: the spec contract holds at the test suite's example
object and context. -/
theorem tree_resolution_preserves_shape_witness :
    SpecTreeResolution
      (ConfigValue.toContext
        (.mapping (.cons "key" (.str "value") (.cons "something" (.str "else") .nil))))
      {}
      (.mapping (.cons "some" (.str (wrapTemplate "key"))
        (.cons "other" (.mapping (.cons "nested" (.str (wrapTemplate "something"))
          (.cons "noTemplate" (.str "at-all") .nil))) .nil)))
      (.mapping (.cons "some" (.str "value")
        (.cons "other" (.mapping (.cons "nested" (.str "else")
          (.cons "noTemplate" (.str "at-all") .nil))) .nil))) :=
  tree_resolution_preserves_shape.1
    (.mapping (.cons "some" (.str (wrapTemplate "key"))
      (.cons "other" (.mapping (.cons "nested" (.str (wrapTemplate "something"))
        (.cons "noTemplate" (.str "at-all") .nil))) .nil)))
    (.mapping (.cons "some" (.str "value")
      (.cons "other" (.mapping (.cons "nested" (.str "else")
        (.cons "noTemplate" (.str "at-all") .nil))) .nil)))
    (ConfigValue.toContext
      (.mapping (.cons "key" (.str "value") (.cons "something" (.str "else") .nil))))
    {} (by decide)

/-- A mapped computation that errors does so from the underlying
computation. -/
theorem except_map_error {α β γ : Type} (f : α → β) (x : Except γ α) (e : γ)
    (h : Except.map f x = .error e) : x = .error e := by
  cases x with
  | error e2 => simpa [Except.map] using h
  | ok a => simp [Except.map] at h

/-- Lexer errors at end of input report the recorded span start. -/
theorem scanAux_error_shape_nil (mode : ScanMode) (acc x : List Char)
    (e : TemplateError) (h : scanAux [] mode acc x = .error e) :
    ∃ k z, e = .syntaxError k (String.mk z) ∧
      ((mode ≠ .outside ∧ z = x) ∨
        (∃ t, z = '$' :: '{' :: t ∧ ∃ p, p ++ z = ([] : List Char))) := by
  cases mode with
  | outside =>
    rw [show scanAux [] ScanMode.outside acc x =
        .ok (if acc.isEmpty then [] else [.lit (String.mk acc.reverse)]) from rfl] at h
    exact absurd h (by simp)
  | inSpan =>
    rw [show scanAux [] ScanMode.inSpan acc x =
        .error (.syntaxError .unterminated (String.mk x)) from rfl] at h
    have h2 : TemplateError.syntaxError .unterminated (String.mk x) = e := by injection h
    exact ⟨.unterminated, x, h2.symm, .inl ⟨by simp, rfl⟩⟩
  | inQuote q =>
    rw [show scanAux [] (ScanMode.inQuote q) acc x =
        .error (.syntaxError .unterminatedQuote (String.mk x)) from rfl] at h
    have h2 : TemplateError.syntaxError .unterminatedQuote (String.mk x) = e := by injection h
    exact ⟨.unterminatedQuote, x, h2.symm, .inl ⟨by simp, rfl⟩⟩

/-- Every lexer error is a syntax error whose offending text starts with the
template opening and runs verbatim from some opening in the scanned text (or
is the recorded span start) to the end of the input; stated with an explicit
length bound for the induction. -/
theorem scanAux_error_shape_aux : ∀ (n : Nat) (cs : List Char) (mode : ScanMode)
    (acc x : List Char) (e : TemplateError), cs.length ≤ n →
    scanAux cs mode acc x = .error e →
    ∃ k z, e = .syntaxError k (String.mk z) ∧
      ((mode ≠ .outside ∧ z = x) ∨
        (∃ t, z = '$' :: '{' :: t ∧ ∃ p, p ++ z = cs)) := by
  intro n
  induction n with
  | zero =>
    intro cs mode acc x e hn h
    have hcs : cs = [] := List.eq_nil_of_length_eq_zero (Nat.le_zero.mp hn)
    subst hcs
    exact scanAux_error_shape_nil mode acc x e h
  | succ n ihn =>
    intro cs mode acc x e hn h
    rcases cs with _ | ⟨c, rest⟩
    · exact scanAux_error_shape_nil mode acc x e h
    · have hn2 : rest.length ≤ n := by
        have := hn
        simp only [List.length_cons] at this
        omega
      cases mode with
      | outside =>
        by_cases hc : c = '$'
        · subst hc
          rcases rest with _ | ⟨d, rest2⟩
          · rw [show scanAux ['$'] ScanMode.outside acc x =
                scanAux [] ScanMode.outside ('$' :: acc) [] from by simp [scanAux]] at h
            rw [show scanAux [] ScanMode.outside ('$' :: acc) [] =
                .ok (if ('$' :: acc).isEmpty then []
                  else [.lit (String.mk ('$' :: acc).reverse)]) from rfl] at h
            exact absurd h (by simp)
          · by_cases hd : d = '{'
            · subst hd
              rw [show scanAux ('$' :: '{' :: rest2) ScanMode.outside acc x =
                  (if acc.isEmpty then
                    scanAux rest2 ScanMode.inSpan [] ('$' :: '{' :: rest2)
                  else Except.map (fun ps => .lit (String.mk acc.reverse) :: ps)
                    (scanAux rest2 ScanMode.inSpan [] ('$' :: '{' :: rest2))) from by
                simp [scanAux]] at h
              have hT : scanAux rest2 ScanMode.inSpan [] ('$' :: '{' :: rest2) = .error e := by
                by_cases ha : acc.isEmpty
                · rwa [if_pos ha] at h
                · rw [if_neg ha] at h; exact except_map_error _ _ _ h
              have hn3 : rest2.length ≤ n := by
                have := hn2
                simp only [List.length_cons] at this
                omega
              rcases ihn rest2 ScanMode.inSpan [] ('$' :: '{' :: rest2) e hn3 hT
                with ⟨k, z, hz, hcase⟩
              refine ⟨k, z, hz, .inr ?_⟩
              rcases hcase with ⟨_, hzx⟩ | ⟨t, hzt, p, hp⟩
              · exact ⟨rest2, by simp [hzx], [], by simp [hzx]⟩
              · exact ⟨t, hzt, '$' :: '{' :: p,
                  by rw [show ('$' :: '{' :: p) ++ z = '$' :: '{' :: (p ++ z) from rfl, hp]⟩
            · rw [show scanAux ('$' :: d :: rest2) ScanMode.outside acc x =
                  scanAux (d :: rest2) ScanMode.outside ('$' :: acc) [] from by
                simp [scanAux, hd]] at h
              rcases ihn (d :: rest2) ScanMode.outside ('$' :: acc) [] e hn2 h
                with ⟨k, z, hz, hcase⟩
              rcases hcase with ⟨hmode, _⟩ | ⟨t, hzt, p, hp⟩
              · exact absurd rfl hmode
              · exact ⟨k, z, hz, .inr ⟨t, hzt, '$' :: p,
                  by rw [show ('$' :: p) ++ z = '$' :: (p ++ z) from rfl, hp]⟩⟩
        · rw [show scanAux (c :: rest) ScanMode.outside acc x =
              scanAux rest ScanMode.outside (c :: acc) [] from by simp [scanAux, hc]] at h
          rcases ihn rest ScanMode.outside (c :: acc) [] e hn2 h with ⟨k, z, hz, hcase⟩
          rcases hcase with ⟨hmode, _⟩ | ⟨t, hzt, p, hp⟩
          · exact absurd rfl hmode
          · exact ⟨k, z, hz, .inr ⟨t, hzt, c :: p,
              by rw [show (c :: p) ++ z = c :: (p ++ z) from rfl, hp]⟩⟩
      | inSpan =>
        by_cases hc : c = '}'
        · subst hc
          rw [show scanAux ('}' :: rest) ScanMode.inSpan acc x =
              Except.map (fun ps => StringPart.tmpl (String.mk acc.reverse) :: ps)
                (scanAux rest ScanMode.outside [] []) from by simp [scanAux]] at h
          have hT := except_map_error _ _ _ h
          rcases ihn rest ScanMode.outside [] [] e hn2 hT with ⟨k, z, hz, hcase⟩
          rcases hcase with ⟨hmode, _⟩ | ⟨t, hzt, p, hp⟩
          · exact absurd rfl hmode
          · exact ⟨k, z, hz, .inr ⟨t, hzt, '}' :: p,
              by rw [show ('}' :: p) ++ z = '}' :: (p ++ z) from rfl, hp]⟩⟩
        · by_cases hc2 : c = '$'
          · subst hc2
            rcases rest with _ | ⟨d, rest2⟩
            · rw [show scanAux ['$'] ScanMode.inSpan acc x =
                  scanAux [] ScanMode.inSpan ('$' :: acc) x from by
                simp [scanAux, squoteChar, dquoteChar]] at h
              rw [show scanAux [] ScanMode.inSpan ('$' :: acc) x =
                  .error (.syntaxError .unterminated (String.mk x)) from rfl] at h
              have h2 : TemplateError.syntaxError .unterminated (String.mk x) = e := by
                injection h
              exact ⟨.unterminated, x, h2.symm, .inl ⟨by simp, rfl⟩⟩
            · by_cases hd : d = '{'
              · subst hd
                rw [show scanAux ('$' :: '{' :: rest2) ScanMode.inSpan acc x =
                    .error (.syntaxError .nested (String.mk x)) from by simp [scanAux]] at h
                have h2 : TemplateError.syntaxError .nested (String.mk x) = e := by injection h
                exact ⟨.nested, x, h2.symm, .inl ⟨by simp, rfl⟩⟩
              · rw [show scanAux ('$' :: d :: rest2) ScanMode.inSpan acc x =
                    scanAux (d :: rest2) ScanMode.inSpan ('$' :: acc) x from by
                  simp [scanAux, hd, squoteChar, dquoteChar]] at h
                rcases ihn (d :: rest2) ScanMode.inSpan ('$' :: acc) x e hn2 h
                  with ⟨k, z, hz, hcase⟩
                rcases hcase with ⟨_, hzx⟩ | ⟨t, hzt, p, hp⟩
                · exact ⟨k, z, hz, .inl ⟨by simp, hzx⟩⟩
                · exact ⟨k, z, hz, .inr ⟨t, hzt, '$' :: p,
                    by rw [show ('$' :: p) ++ z = '$' :: (p ++ z) from rfl, hp]⟩⟩
          · by_cases hq : c = squoteChar ∨ c = dquoteChar
            · rw [show scanAux (c :: rest) ScanMode.inSpan acc x =
                  scanAux rest (ScanMode.inQuote c) (c :: acc) x from by
                simp [scanAux, hc, hc2, hq]] at h
              rcases ihn rest (ScanMode.inQuote c) (c :: acc) x e hn2 h
                with ⟨k, z, hz, hcase⟩
              rcases hcase with ⟨_, hzx⟩ | ⟨t, hzt, p, hp⟩
              · exact ⟨k, z, hz, .inl ⟨by simp, hzx⟩⟩
              · exact ⟨k, z, hz, .inr ⟨t, hzt, c :: p,
                  by rw [show (c :: p) ++ z = c :: (p ++ z) from rfl, hp]⟩⟩
            · rw [show scanAux (c :: rest) ScanMode.inSpan acc x =
                  scanAux rest ScanMode.inSpan (c :: acc) x from by
                simp [scanAux, hc, hc2, hq]] at h
              rcases ihn rest ScanMode.inSpan (c :: acc) x e hn2 h with ⟨k, z, hz, hcase⟩
              rcases hcase with ⟨_, hzx⟩ | ⟨t, hzt, p, hp⟩
              · exact ⟨k, z, hz, .inl ⟨by simp, hzx⟩⟩
              · exact ⟨k, z, hz, .inr ⟨t, hzt, c :: p,
                  by rw [show (c :: p) ++ z = c :: (p ++ z) from rfl, hp]⟩⟩
      | inQuote q =>
        by_cases hc : c = q
        · rw [show scanAux (c :: rest) (ScanMode.inQuote q) acc x =
              scanAux rest ScanMode.inSpan (c :: acc) x from by simp [scanAux, hc]] at h
          rcases ihn rest ScanMode.inSpan (c :: acc) x e hn2 h with ⟨k, z, hz, hcase⟩
          rcases hcase with ⟨_, hzx⟩ | ⟨t, hzt, p, hp⟩
          · exact ⟨k, z, hz, .inl ⟨by simp, hzx⟩⟩
          · exact ⟨k, z, hz, .inr ⟨t, hzt, c :: p,
              by rw [show (c :: p) ++ z = c :: (p ++ z) from rfl, hp]⟩⟩
        · rw [show scanAux (c :: rest) (ScanMode.inQuote q) acc x =
              scanAux rest (ScanMode.inQuote q) (c :: acc) x from by simp [scanAux, hc]] at h
          rcases ihn rest (ScanMode.inQuote q) (c :: acc) x e hn2 h with ⟨k, z, hz, hcase⟩
          rcases hcase with ⟨_, hzx⟩ | ⟨t, hzt, p, hp⟩
          · exact ⟨k, z, hz, .inl ⟨by simp, hzx⟩⟩
          · exact ⟨k, z, hz, .inr ⟨t, hzt, c :: p,
              by rw [show (c :: p) ++ z = c :: (p ++ z) from rfl, hp]⟩⟩

/-- Every lexer error is a syntax error whose offending text is the verbatim
substring of the input running from a template opening to the end of the
input. -/
theorem scanAux_error_shape (cs : List Char) (mode : ScanMode)
    (acc x : List Char) (e : TemplateError) (h : scanAux cs mode acc x = .error e) :
    ∃ k z, e = .syntaxError k (String.mk z) ∧
      ((mode ≠ .outside ∧ z = x) ∨
        (∃ t, z = '$' :: '{' :: t ∧ ∃ p, p ++ z = cs)) :=
  scanAux_error_shape_aux cs.length cs mode acc x e (Nat.le_refl _) h

/-- C5: every syntax error for malformed template text — an unterminated
opening, a nested opening (kind `.nested`), or an unterminated single- or
double-quoted literal — carries, and includes in its message, the verbatim
offending substring of the input, which begins at a template opening and
runs to the end of the input; shown generally for the lexer and at the test
suite's concrete inputs, where the offending text is the full original
span text. -/
theorem syntax_error_includes_offending :
    (∀ (input : String) (e : TemplateError),
      splitTemplate input = .error e →
      ∃ k z, e = .syntaxError k (String.mk z) ∧ (∃ t, z = '$' :: '{' :: t) ∧
        (∃ p, p ++ z = input.data) ∧
        e.message = "Invalid template string: " ++ String.mk z)
    ∧ resolveTemplateString "$\x7bsome" (ConfigValue.toContext (.mapping .nil)) {} =
        .error (.syntaxError .unterminated "$\x7bsome")
    ∧ (TemplateError.syntaxError .unterminated "$\x7bsome").message =
        "Invalid template string: $\x7bsome"
    ∧ resolveTemplateString (wrapTemplate ("resol" ++ wrapTemplate "part" ++ "ed"))
        (ConfigValue.toContext (.mapping .nil)) {} =
        .error (.syntaxError .nested (wrapTemplate ("resol" ++ wrapTemplate "part" ++ "ed")))
    ∧ resolveTemplateString (wrapTemplate (String.mk [squoteChar] ++ "foo"))
        (ConfigValue.toContext (.mapping .nil)) {} =
        .error (.syntaxError .unterminatedQuote
          (wrapTemplate (String.mk [squoteChar] ++ "foo")))
    ∧ resolveTemplateString (wrapTemplate (String.mk [dquoteChar] ++ "foo"))
        (ConfigValue.toContext (.mapping .nil)) {} =
        .error (.syntaxError .unterminatedQuote
          (wrapTemplate (String.mk [dquoteChar] ++ "foo")))
    ∧ (∀ (k : SyntaxErrorKind) (off : String),
      (TemplateError.syntaxError k off).message = "Invalid template string: " ++ off) := by
  refine ⟨fun input e h => ?_, by decide, by decide, by decide, by decide, by decide,
    fun k off => rfl⟩
  rcases scanAux_error_shape input.data .outside [] [] e h with ⟨k, z, hz, hcase⟩
  rcases hcase with ⟨hmode, _⟩ | ⟨t, hzt, p, hp⟩
  · exact absurd rfl hmode
  · exact ⟨k, z, hz, ⟨t, hzt⟩, ⟨p, hp⟩, by rw [hz]; rfl⟩

/-- Witness for C5: the unterminated input of the test suite, with its
offending text and message. -/
theorem syntax_error_includes_offending_witness :
    ∃ k z, TemplateError.syntaxError .unterminated "$\x7bsome" =
        .syntaxError k (String.mk z) ∧ (∃ t, z = '$' :: '{' :: t) ∧
      (∃ p, p ++ z = ("$\x7bsome" : String).data) ∧
      (TemplateError.syntaxError .unterminated "$\x7bsome").message =
        "Invalid template string: " ++ String.mk z :=
  syntax_error_includes_offending.1 "$\x7bsome"
    (.syntaxError .unterminated "$\x7bsome") (by decide)

/-- Characters with equal code points are equal. -/
theorem char_eq_of_toNat_eq {a b : Char} (h : a.toNat = b.toNat) : a = b :=
  Char.eq_of_val_eq (UInt32.toNat.inj h)

/-- Lexicographic character-list comparison is irreflexive. -/
theorem charsLtB_irrefl : ∀ cs, charsLtB cs cs = false := by
  intro cs
  induction cs with
  | nil => rfl
  | cons c rest ih => simp [charsLtB, ih]

/-- Lexicographic character-list comparison is transitive. -/
theorem charsLtB_trans : ∀ a b c, charsLtB a b = true → charsLtB b c = true →
    charsLtB a c = true := by
  intro a
  induction a with
  | nil =>
    intro b c hab hbc
    cases b with
    | nil => simp [charsLtB] at hab
    | cons b0 bs =>
      cases c with
      | nil => simp [charsLtB] at hbc
      | cons c0 cs => simp [charsLtB]
  | cons a0 xs ih =>
    intro b c hab hbc
    cases b with
    | nil => simp [charsLtB] at hab
    | cons b0 bs =>
      cases c with
      | nil => simp [charsLtB] at hbc
      | cons c0 cs =>
        simp only [charsLtB] at hab hbc ⊢
        by_cases h1 : a0 = b0
        · subst h1
          rw [if_pos rfl] at hab
          by_cases h2 : a0 = c0
          · subst h2
            rw [if_pos rfl] at hbc ⊢
            exact ih bs cs hab hbc
          · rw [if_neg h2] at hbc ⊢
            exact hbc
        · rw [if_neg h1] at hab
          by_cases h2 : b0 = c0
          · subst h2
            rw [if_neg h1]
            exact hab
          · rw [if_neg h2] at hbc
            have hlt : a0.toNat < c0.toNat :=
              Nat.lt_trans (of_decide_eq_true hab) (of_decide_eq_true hbc)
            have hne : a0 ≠ c0 := fun he => Nat.lt_irrefl _ (he ▸ hlt)
            rw [if_neg hne]
            exact decide_eq_true hlt

/-- Lexicographic character-list comparison is total on distinct lists. -/
theorem charsLtB_total : ∀ a b, a ≠ b →
    charsLtB a b = true ∨ charsLtB b a = true := by
  intro a
  induction a with
  | nil =>
    intro b hne
    cases b with
    | nil => exact absurd rfl hne
    | cons b0 bs => left; simp [charsLtB]
  | cons a0 xs ih =>
    intro b hne
    cases b with
    | nil => right; simp [charsLtB]
    | cons b0 bs =>
      by_cases h1 : a0 = b0
      · subst h1
        have hne2 : xs ≠ bs := fun he => hne (by rw [he])
        rcases ih bs hne2 with h | h
        · left; simp [charsLtB, h]
        · right; simp [charsLtB, h]
      · have hnat : a0.toNat ≠ b0.toNat := fun he => h1 (char_eq_of_toNat_eq he)
        rcases Nat.lt_or_ge a0.toNat b0.toNat with h | h
        · left; simp [charsLtB, h1, h]
        · have hb : b0 ≠ a0 := fun he => h1 he.symm
          have hlt : b0.toNat < a0.toNat := Nat.lt_of_le_of_ne h (Ne.symm hnat)
          right; simp [charsLtB, hb, hlt]

/-- String comparison is irreflexive. -/
theorem strLtB_irrefl (a : String) : strLtB a a = false := charsLtB_irrefl a.data

/-- String comparison is transitive. -/
theorem strLtB_trans (a b c : String) (h1 : strLtB a b = true)
    (h2 : strLtB b c = true) : strLtB a c = true :=
  charsLtB_trans a.data b.data c.data h1 h2

/-- String comparison is total on distinct strings. -/
theorem strLtB_total (a b : String) (h : a ≠ b) :
    strLtB a b = true ∨ strLtB b a = true :=
  charsLtB_total a.data b.data (fun he => h (String.ext he))

/-- Path comparison is irreflexive. -/
theorem pathLtB_irrefl : ∀ p, pathLtB p p = false := by
  intro p
  induction p with
  | nil => rfl
  | cons a rest ih => simp [pathLtB, ih]

/-- Path comparison is transitive. -/
theorem pathLtB_trans : ∀ a b c, pathLtB a b = true → pathLtB b c = true →
    pathLtB a c = true := by
  intro a
  induction a with
  | nil =>
    intro b c hab hbc
    cases b with
    | nil => simp [pathLtB] at hab
    | cons b0 bs =>
      cases c with
      | nil => simp [pathLtB] at hbc
      | cons c0 cs => simp [pathLtB]
  | cons a0 xs ih =>
    intro b c hab hbc
    cases b with
    | nil => simp [pathLtB] at hab
    | cons b0 bs =>
      cases c with
      | nil => simp [pathLtB] at hbc
      | cons c0 cs =>
        simp only [pathLtB] at hab hbc ⊢
        by_cases h1 : a0 = b0
        · subst h1
          rw [if_pos rfl] at hab
          by_cases h2 : a0 = c0
          · subst h2
            rw [if_pos rfl] at hbc ⊢
            exact ih bs cs hab hbc
          · rw [if_neg h2] at hbc ⊢
            exact hbc
        · rw [if_neg h1] at hab
          by_cases h2 : b0 = c0
          · subst h2
            rw [if_neg h1]
            exact hab
          · rw [if_neg h2] at hbc
            have hlt : strLtB a0 c0 = true := strLtB_trans a0 b0 c0 hab hbc
            have hne : a0 ≠ c0 := fun he => by
              rw [he] at hlt
              rw [strLtB_irrefl] at hlt
              exact Bool.noConfusion hlt
            rw [if_neg hne]
            exact hlt

/-- Path comparison is total on distinct paths. -/
theorem pathLtB_total : ∀ a b, a ≠ b → pathLtB a b = true ∨ pathLtB b a = true := by
  intro a
  induction a with
  | nil =>
    intro b hne
    cases b with
    | nil => exact absurd rfl hne
    | cons b0 bs => left; simp [pathLtB]
  | cons a0 xs ih =>
    intro b hne
    cases b with
    | nil => right; simp [pathLtB]
    | cons b0 bs =>
      by_cases h1 : a0 = b0
      · subst h1
        have hne2 : xs ≠ bs := fun he => hne (by rw [he])
        rcases ih bs hne2 with h | h
        · left; simp [pathLtB, h]
        · right; simp [pathLtB, h]
      · have hb : b0 ≠ a0 := fun he => h1 he.symm
        rcases strLtB_total a0 b0 h1 with h | h
        · left; simp [pathLtB, h1, h]
        · right; simp [pathLtB, hb, h]

/-- Strictly smaller paths are distinct. -/
theorem pathLtB_ne (a b : List String) (h : pathLtB a b = true) : a ≠ b := by
  intro he
  rw [he, pathLtB_irrefl] at h
  exact Bool.noConfusion h

/-- Membership in a sorted insertion. -/
theorem mem_insertPath : ∀ (p q : List String) (l : List (List String)),
    q ∈ insertPath p l ↔ q = p ∨ q ∈ l := by
  intro p q l
  induction l with
  | nil => simp [insertPath]
  | cons r rest ih =>
    simp only [insertPath]
    by_cases h1 : pathLtB p r = true
    · rw [if_pos h1]; simp
    · rw [if_neg h1]
      by_cases h2 : p = r
      · rw [if_pos h2]; subst h2; simp
      · rw [if_neg h2]
        simp only [List.mem_cons, ih]
        tauto

/-- Sorted insertion preserves strict sortedness. -/
theorem sorted_insertPath : ∀ (p : List String) (l : List (List String)),
    List.Pairwise (fun a b => pathLtB a b = true) l →
    List.Pairwise (fun a b => pathLtB a b = true) (insertPath p l) := by
  intro p l
  induction l with
  | nil => intro _; simp [insertPath]
  | cons r rest ih =>
    intro hp
    rcases List.pairwise_cons.mp hp with ⟨hr, hrest⟩
    simp only [insertPath]
    by_cases h1 : pathLtB p r = true
    · rw [if_pos h1]
      refine List.pairwise_cons.mpr ⟨?_, hp⟩
      intro b hb
      rcases List.mem_cons.mp hb with he | hb2
      · rw [he]; exact h1
      · exact pathLtB_trans p r b h1 (hr b hb2)
    · rw [if_neg h1]
      by_cases h2 : p = r
      · rw [if_pos h2]; exact hp
      · rw [if_neg h2]
        refine List.pairwise_cons.mpr ⟨?_, ih hrest⟩
        intro b hb
        rcases (mem_insertPath p b rest).mp hb with he | hb2
        · rcases pathLtB_total p r h2 with h | h
          · exact absurd h h1
          · rw [he]; exact h
        · exact hr b hb2

/-- Membership after folding sorted insertions. -/
theorem mem_foldl_insertPath : ∀ (raws acc : List (List String)) (q : List String),
    (q ∈ raws.foldl (fun l p => insertPath p l) acc) ↔ q ∈ acc ∨ q ∈ raws := by
  intro raws
  induction raws with
  | nil => intro acc q; simp
  | cons r rest ih =>
    intro acc q
    simp only [List.foldl_cons]
    rw [ih (insertPath r acc) q, mem_insertPath r q acc]
    simp only [List.mem_cons]
    tauto

/-- Sortedness after folding sorted insertions. -/
theorem sorted_foldl_insertPath : ∀ (raws acc : List (List String)),
    List.Pairwise (fun a b => pathLtB a b = true) acc →
    List.Pairwise (fun a b => pathLtB a b = true)
      (raws.foldl (fun l p => insertPath p l) acc) := by
  intro raws
  induction raws with
  | nil => intro acc h; exact h
  | cons r rest ih =>
    intro acc h
    exact ih (insertPath r acc) (sorted_insertPath r acc h)

/-- The collector's output order contains exactly the raw references. -/
theorem mem_sortedInsertAll (raws : List (List String)) (q : List String) :
    q ∈ sortedInsertAll raws ↔ q ∈ raws := by
  unfold sortedInsertAll
  rw [mem_foldl_insertPath raws [] q]
  simp

/-- The collector's output is strictly sorted. -/
theorem sorted_sortedInsertAll (raws : List (List String)) :
    List.Pairwise (fun a b => pathLtB a b = true) (sortedInsertAll raws) :=
  sorted_foldl_insertPath raws [] (by simp)

/-- A strictly sorted path list has no duplicates. -/
theorem nodup_of_pathLtB_sorted (l : List (List String))
    (h : List.Pairwise (fun a b => pathLtB a b = true) l) : l.Nodup :=
  h.imp (fun hab => pathLtB_ne _ _ hab)

/-- Strictly sorted path lists with the same members are equal. -/
theorem sorted_eq_of_mem_iff : ∀ (l1 l2 : List (List String)),
    List.Pairwise (fun a b => pathLtB a b = true) l1 →
    List.Pairwise (fun a b => pathLtB a b = true) l2 →
    (∀ q, q ∈ l1 ↔ q ∈ l2) → l1 = l2 := by
  intro l1
  induction l1 with
  | nil =>
    intro l2 _ _ hmem
    cases l2 with
    | nil => rfl
    | cons b bs => exact absurd ((hmem b).mpr (by simp)) (by simp)
  | cons a xs ih =>
    intro l2 h1 h2 hmem
    cases l2 with
    | nil => exact absurd ((hmem a).mp (by simp)) (by simp)
    | cons b bs =>
      rcases List.pairwise_cons.mp h1 with ⟨ha, hxs⟩
      rcases List.pairwise_cons.mp h2 with ⟨hb, hbs⟩
      have hab : a = b := by
        rcases List.mem_cons.mp ((hmem a).mp (by simp)) with he | hmem2
        · exact he
        · rcases List.mem_cons.mp ((hmem b).mpr (by simp)) with he | hmem3
          · exact he.symm
          · have := pathLtB_trans a b a (ha b hmem3) (hb a hmem2)
            rw [pathLtB_irrefl] at this
            exact absurd this (by simp)
      subst hab
      have htail : ∀ q, q ∈ xs ↔ q ∈ bs := by
        intro q
        constructor
        · intro hq
          rcases List.mem_cons.mp ((hmem q).mp (List.mem_cons_of_mem a hq)) with he | h2q
          · subst he
            have := ha q hq
            rw [pathLtB_irrefl] at this
            exact absurd this (by simp)
          · exact h2q
        · intro hq
          rcases List.mem_cons.mp ((hmem q).mpr (List.mem_cons_of_mem a hq)) with he | h2q
          · subst he
            have := hb q hq
            rw [pathLtB_irrefl] at this
            exact absurd this (by simp)
          · exact h2q
      rw [ih bs hxs hbs htail]

/-- Reference extraction from lexed parts can only fail with a syntax
error. -/
theorem refsOfParts_error : ∀ (parts : List StringPart) (e : TemplateError),
    refsOfParts parts = .error e → e.isSyntax = true := by
  intro parts
  induction parts with
  | nil => intro e h; exact absurd h (by simp [refsOfParts])
  | cons part rest ih =>
    intro e h
    cases part with
    | lit s => exact ih e h
    | tmpl content =>
      simp only [refsOfParts] at h
      cases hp : parseExpr content with
      | error u =>
        rw [hp] at h
        have h2 : TemplateError.syntaxError .invalidExpression (wrapTemplate content) = e := by
          injection h
        rw [← h2]; rfl
      | ok alts =>
        rw [hp] at h
        cases hr : refsOfParts rest with
        | error e2 =>
          rw [hr] at h
          have h2 : e2 = e := by injection h
          subst h2
          exact ih e2 hr
        | ok others => rw [hr] at h; exact absurd h (by simp)

/-- Reference extraction from one string can only fail with a syntax
error. -/
theorem refsOfString_error (s : String) (e : TemplateError)
    (h : refsOfString s = .error e) : e.isSyntax = true := by
  unfold refsOfString at h
  cases hs : splitTemplate s with
  | error e2 =>
    rw [hs] at h
    have h2 : e2 = e := by injection h
    subst h2
    rcases scanAux_error_shape s.data .outside [] [] e2 hs with ⟨k, z, hz, _⟩
    rw [hz]; rfl
  | ok parts => rw [hs] at h; exact refsOfParts_error parts e h

mutual
/-- The raw reference traversal can only fail with a syntax error. -/
theorem collectRaw_error (t : ConfigValue) (e : TemplateError)
    (h : collectRaw t = .error e) : e.isSyntax = true := by
  cases t with
  | str s => exact refsOfString_error s e h
  | mapping es => exact collectRawEntries_error es e h
  | sequence vs => exact collectRawItems_error vs e h
  | num n => exact absurd h (by simp [collectRaw])
  | bool b => exact absurd h (by simp [collectRaw])
  | null => exact absurd h (by simp [collectRaw])
  | undef => exact absurd h (by simp [collectRaw])
/-- The raw reference traversal of entries can only fail with a syntax
error. -/
theorem collectRawEntries_error (es : EntryList) (e : TemplateError)
    (h : collectRawEntries es = .error e) : e.isSyntax = true := by
  cases es with
  | nil => exact absurd h (by simp [collectRawEntries])
  | cons k v rest =>
    simp only [collectRawEntries] at h
    cases hv : collectRaw v with
    | error e2 =>
      rw [hv] at h
      have h2 : e2 = e := by injection h
      subst h2
      exact collectRaw_error v e2 hv
    | ok refs =>
      rw [hv] at h
      cases hr : collectRawEntries rest with
      | error e2 =>
        rw [hr] at h
        have h2 : e2 = e := by injection h
        subst h2
        exact collectRawEntries_error rest e2 hr
      | ok others => rw [hr] at h; exact absurd h (by simp)
/-- The raw reference traversal of items can only fail with a syntax
error. -/
theorem collectRawItems_error (vs : ValueList) (e : TemplateError)
    (h : collectRawItems vs = .error e) : e.isSyntax = true := by
  cases vs with
  | nil => exact absurd h (by simp [collectRawItems])
  | cons v rest =>
    simp only [collectRawItems] at h
    cases hv : collectRaw v with
    | error e2 =>
      rw [hv] at h
      have h2 : e2 = e := by injection h
      subst h2
      exact collectRaw_error v e2 hv
    | ok refs =>
      rw [hv] at h
      cases hr : collectRawItems rest with
      | error e2 =>
        rw [hr] at h
        have h2 : e2 = e := by injection h
        subst h2
        exact collectRawItems_error rest e2 hr
      | ok others => rw [hr] at h; exact absurd h (by simp)
end

/-- Literal alternatives contribute no references. -/
theorem refsOfAlts_all_lit : ∀ (alts : List Alt),
    (∀ a ∈ alts, ∃ v, a = Alt.lit v) → refsOfAlts alts = [] := by
  intro alts
  induction alts with
  | nil => intro _; rfl
  | cons a rest ih =>
    intro hall
    rcases hall a (by simp) with ⟨v, hv⟩
    subst hv
    simp only [refsOfAlts]
    exact ih (fun b hb => hall b (by simp [hb]))

/-- C6: `collectTemplateReferences` returns the referenced identifier paths
of the whole tree, deduplicated, sorted lexicographically segment by
segment (so the output is canonical in the set of raw references and
independent of traversal order), with literal alternatives contributing
nothing, no Context consulted (the operation takes none), and syntax
errors as the only possible failures; shown also on the test suite's
example tree. -/
theorem collect_references_sorted_dedup :
    (∀ (t : ConfigValue) (refs : List (List String)),
      collectTemplateReferences t = .ok refs →
      List.Pairwise (fun a b => pathLtB a b = true) refs ∧ refs.Nodup ∧
        ∃ raws, collectRaw t = .ok raws ∧ ∀ q, q ∈ refs ↔ q ∈ raws)
    ∧ (∀ (t : ConfigValue) (e : TemplateError),
      collectTemplateReferences t = .error e → e.isSyntax = true)
    ∧ (∀ (t1 t2 : ConfigValue) (r1 r2 : List (List String)),
      collectRaw t1 = .ok r1 → collectRaw t2 = .ok r2 →
      (∀ q, q ∈ r1 ↔ q ∈ r2) →
      collectTemplateReferences t1 = collectTemplateReferences t2)
    ∧ (∀ (alts : List Alt),
      (∀ a ∈ alts, ∃ v, a = Alt.lit v) → refsOfAlts alts = [])
    ∧ collectTemplateReferences
        (.mapping (.cons "foo" (.str (wrapTemplate "my.reference"))
          (.cons "nested" (.mapping (.cons "boo" (.str (wrapTemplate "moo"))
            (.cons "foo" (.str ("lalalla" ++ wrapTemplate "moo" ++ wrapTemplate "moo"))
              (.cons "banana" (.str (wrapTemplate "banana.rama.llama")) .nil)))) .nil))) =
        .ok [["banana", "rama", "llama"], ["moo"], ["my", "reference"]] := by
  refine ⟨fun t refs h => ?_, fun t e h => ?_,
    fun t1 t2 r1 r2 h1 h2 hm => ?_, refsOfAlts_all_lit, by decide⟩
  · unfold collectTemplateReferences at h
    cases hr : collectRaw t with
    | error e => rw [hr] at h; exact absurd h (by simp)
    | ok raws =>
      rw [hr] at h
      have h2 : sortedInsertAll raws = refs := by injection h
      subst h2
      exact ⟨sorted_sortedInsertAll raws,
        nodup_of_pathLtB_sorted _ (sorted_sortedInsertAll raws),
        raws, rfl, fun q => mem_sortedInsertAll raws q⟩
  · unfold collectTemplateReferences at h
    cases hr : collectRaw t with
    | error e2 =>
      rw [hr] at h
      have h3 : e2 = e := by injection h
      subst h3
      exact collectRaw_error t e2 hr
    | ok raws => rw [hr] at h; exact absurd h (by simp)
  · unfold collectTemplateReferences
    rw [h1, h2]
    have heq : sortedInsertAll r1 = sortedInsertAll r2 :=
      sorted_eq_of_mem_iff _ _ (sorted_sortedInsertAll r1) (sorted_sortedInsertAll r2)
        (fun q => by rw [mem_sortedInsertAll, mem_sortedInsertAll]; exact hm q)
    show Except.ok (sortedInsertAll r1) = Except.ok (sortedInsertAll r2)
    rw [heq]

/-- Witness for C6: the guarantees instantiated at the test suite's tree
and its collected references. -/
theorem collect_references_sorted_dedup_witness :
    List.Pairwise (fun a b => pathLtB a b = true)
        [["banana", "rama", "llama"], ["moo"], ["my", "reference"]] ∧
      ([["banana", "rama", "llama"], ["moo"], ["my", "reference"]] :
        List (List String)).Nodup ∧
      ∃ raws, collectRaw
          (.mapping (.cons "foo" (.str (wrapTemplate "my.reference"))
            (.cons "nested" (.mapping (.cons "boo" (.str (wrapTemplate "moo"))
              (.cons "foo" (.str ("lalalla" ++ wrapTemplate "moo" ++ wrapTemplate "moo"))
                (.cons "banana" (.str (wrapTemplate "banana.rama.llama")) .nil)))) .nil))) =
          .ok raws ∧
        ∀ q, q ∈ [["banana", "rama", "llama"], ["moo"], ["my", "reference"]] ↔ q ∈ raws :=
  collect_references_sorted_dedup.1
    (.mapping (.cons "foo" (.str (wrapTemplate "my.reference"))
      (.cons "nested" (.mapping (.cons "boo" (.str (wrapTemplate "moo"))
        (.cons "foo" (.str ("lalalla" ++ wrapTemplate "moo" ++ wrapTemplate "moo"))
          (.cons "banana" (.str (wrapTemplate "banana.rama.llama")) .nil)))) .nil)))
    [["banana", "rama", "llama"], ["moo"], ["my", "reference"]] (by decide)

/-- One parser step on an extended accumulator only renames the carried
alternatives. -/
theorem pstep_acc (st : PState) (acc extra : List Alt) (c : Char) :
    pstep (st, acc ++ extra) c =
      Except.map (fun cfg => (cfg.1, cfg.2 ++ extra)) (pstep (st, acc) c) := by
  cases st <;> simp only [pstep] <;> split_ifs <;> simp [Except.map]

/-- The parser run is accumulator-polymorphic: extending the accumulator
carries through unchanged. -/
theorem parseRun_acc : ∀ (cs : List Char) (st : PState) (acc extra : List Alt),
    parseRun (st, acc ++ extra) cs =
      Except.map (fun cfg => (cfg.1, cfg.2 ++ extra)) (parseRun (st, acc) cs) := by
  intro cs
  induction cs with
  | nil => intro st acc extra; rfl
  | cons c rest ih =>
    intro st acc extra
    simp only [parseRun]
    rw [pstep_acc st acc extra c]
    cases hp : pstep (st, acc) c with
    | error e => rfl
    | ok cfg =>
      obtain ⟨st2, acc2⟩ := cfg
      simp only [Except.map]
      exact ih st2 acc2 extra

/-- Finishing with an extended accumulator appends the extension's reverse
in front. -/
theorem pfinish_acc (st : PState) (acc extra : List Alt) :
    pfinish (st, acc ++ extra) =
      Except.map (fun l => extra.reverse ++ l) (pfinish (st, acc)) := by
  cases st <;> simp [pfinish, Except.map, List.reverse_append]

/-- The configurations that finish as a single alternative. -/
theorem pfinish_single (st : PState) (acc : List Alt) (a : Alt)
    (h : pfinish (st, acc) = .ok [a]) :
    (st = .afterAlt ∧ acc = [a]) ∨
      (∃ segs cur, st = .inIdent segs cur ∧ acc = [] ∧ identAlt segs cur = a) := by
  cases st with
  | afterAlt =>
    left
    have h2 : acc.reverse = [a] := by injection h
    refine ⟨rfl, ?_⟩
    have h3 := congrArg List.reverse h2
    simpa using h3
  | inIdent segs cur =>
    right
    have h2 : (identAlt segs cur :: acc).reverse = [a] := by injection h
    rw [List.reverse_cons] at h2
    have hlen := congrArg List.length h2
    simp only [List.length_append, List.length_reverse, List.length_cons,
      List.length_nil] at hlen
    have hacc : acc = [] := List.eq_nil_of_length_eq_zero (by omega)
    subst hacc
    simp only [List.reverse_nil, List.nil_append, List.cons.injEq, and_true] at h2
    exact ⟨segs, cur, rfl, rfl, h2⟩
  | expectAlt => exact absurd h (by simp [pfinish])
  | inQuote q qacc => exact absurd h (by simp [pfinish])
  | dotSeg segs => exact absurd h (by simp [pfinish])
  | pipeOne => exact absurd h (by simp [pfinish])

/-- A successful parse factors through the run and the finish. -/
theorem parseExpr_ok_inv (s : String) (alts : List Alt)
    (h : parseExpr s = .ok alts) :
    ∃ cfg, parseRun (.expectAlt, []) s.data = .ok cfg ∧ pfinish cfg = .ok alts := by
  unfold parseExpr at h
  cases hr : parseRun (.expectAlt, []) s.data with
  | error e => rw [hr] at h; exact absurd h (by simp)
  | ok cfg => rw [hr] at h; exact ⟨cfg, rfl, h⟩

/-- The parser run decomposes over list concatenation. -/
theorem parseRun_append (cfg : PState × List Alt) (l1 l2 : List Char) :
    parseRun cfg (l1 ++ l2) =
      (match parseRun cfg l1 with
        | .error e => .error e
        | .ok cfg2 => parseRun cfg2 l2) := by
  induction l1 generalizing cfg with
  | nil => rfl
  | cons c cs ih =>
    simp only [List.cons_append, parseRun]
    cases pstep cfg c with
    | error e => rfl
    | ok cfg2 => exact ih cfg2

/-- Two single-alternative expressions joined by the conditional operator —
with or without surrounding whitespace — parse to the same two-alternative
chain. -/
theorem parseExpr_combined (sa sb : String) (a b : Alt)
    (ha : parseExpr sa = .ok [a]) (hb : parseExpr sb = .ok [b]) :
    parseExpr (sa ++ "||" ++ sb) = .ok [a, b] ∧
      parseExpr (sa ++ " || " ++ sb) = .ok [a, b] := by
  obtain ⟨cfg, hrun, hfin⟩ := parseExpr_ok_inv sa [a] ha
  obtain ⟨st, acc⟩ := cfg
  obtain ⟨cfgb, hrunb, hfinb⟩ := parseExpr_ok_inv sb [b] hb
  obtain ⟨stb, accb⟩ := cfgb
  have h0 := parseRun_acc sb.data .expectAlt [] [a]
  rw [List.nil_append] at h0
  have hrunb2 : parseRun (.expectAlt, [a]) sb.data = .ok (stb, accb ++ [a]) := by
    rw [h0, hrunb]
    rfl
  have hfinb2 : pfinish (stb, accb ++ [a]) = .ok [a, b] := by
    rw [pfinish_acc stb accb [a], hfinb]
    rfl
  have hsep1 : parseRun (st, acc) ('|' :: '|' :: sb.data) = .ok (stb, accb ++ [a]) := by
    rcases pfinish_single st acc a hfin with ⟨hst, hacc⟩ | ⟨segs, cur, hst, hacc, hia⟩
    · subst hst; subst hacc
      rw [show parseRun (PState.afterAlt, [a]) ('|' :: '|' :: sb.data) =
          parseRun (PState.expectAlt, [a]) sb.data from rfl]
      exact hrunb2
    · subst hst; subst hacc
      rw [show parseRun (PState.inIdent segs cur, []) ('|' :: '|' :: sb.data) =
          parseRun (PState.expectAlt, [identAlt segs cur]) sb.data from rfl]
      rw [hia]
      exact hrunb2
  have hsep2 : parseRun (st, acc) (' ' :: '|' :: '|' :: ' ' :: sb.data) =
      .ok (stb, accb ++ [a]) := by
    rcases pfinish_single st acc a hfin with ⟨hst, hacc⟩ | ⟨segs, cur, hst, hacc, hia⟩
    · subst hst; subst hacc
      rw [show parseRun (PState.afterAlt, [a]) (' ' :: '|' :: '|' :: ' ' :: sb.data) =
          parseRun (PState.expectAlt, [a]) sb.data from rfl]
      exact hrunb2
    · subst hst; subst hacc
      rw [show parseRun (PState.inIdent segs cur, []) (' ' :: '|' :: '|' :: ' ' :: sb.data) =
          parseRun (PState.expectAlt, [identAlt segs cur]) sb.data from rfl]
      rw [hia]
      exact hrunb2
  constructor
  · have hall : parseRun (.expectAlt, []) (sa.data ++ ('|' :: '|' :: sb.data)) =
        .ok (stb, accb ++ [a]) := by
      rw [parseRun_append, hrun]
      exact hsep1
    unfold parseExpr
    rw [show (sa ++ "||" ++ sb).data = sa.data ++ ('|' :: '|' :: sb.data) from by
      rw [String.data_append, String.data_append,
        show ("||" : String).data = ['|', '|'] from by decide]
      simp]
    rw [hall]
    exact hfinb2
  · have hall : parseRun (.expectAlt, [])
        (sa.data ++ (' ' :: '|' :: '|' :: ' ' :: sb.data)) = .ok (stb, accb ++ [a]) := by
      rw [parseRun_append, hrun]
      exact hsep2
    unfold parseExpr
    rw [show (sa ++ " || " ++ sb).data = sa.data ++ (' ' :: '|' :: '|' :: ' ' :: sb.data) from by
      rw [String.data_append, String.data_append,
        show (" || " : String).data = [' ', '|', '|', ' '] from by decide]
      simp]
    rw [hall]
    exact hfinb2

/-- C10: the conditional operator parses identically with and without
surrounding whitespace — for any two alternatives and any context, the
chain without spaces resolves exactly as the chain with spaces. -/
theorem conditional_operator_whitespace_insensitive :
    ∀ (sa sb : String) (a b : Alt) (ctx : ConfigContext) (opts : ResolveOpts),
    parseExpr sa = .ok [a] → parseExpr sb = .ok [b] →
    splitTemplate (wrapTemplate (sa ++ "||" ++ sb)) =
      .ok [.tmpl (sa ++ "||" ++ sb)] →
    splitTemplate (wrapTemplate (sa ++ " || " ++ sb)) =
      .ok [.tmpl (sa ++ " || " ++ sb)] →
    resolveTemplateString (wrapTemplate (sa ++ "||" ++ sb)) ctx opts =
      resolveTemplateString (wrapTemplate (sa ++ " || " ++ sb)) ctx opts := by
  intro sa sb a b ctx opts ha hb h1 h2
  obtain ⟨hc1, hc2⟩ := parseExpr_combined sa sb a b ha hb
  rw [resolveTemplateString_whole _ _ ctx opts h1,
    resolveTemplateString_whole _ _ ctx opts h2]
  rw [evalSpan_parse _ ctx _ [a, b] hc1, evalSpan_parse _ ctx _ [a, b] hc2]

/-- Witness for C10: the test suite's pair of inputs with and without
spaces resolve identically. -/
theorem conditional_operator_whitespace_insensitive_witness :
    resolveTemplateString (wrapTemplate ("a" ++ "||" ++ "b"))
        (ConfigValue.toContext (.mapping (.cons "b" (.str "abc") .nil))) {} =
      resolveTemplateString (wrapTemplate ("a" ++ " || " ++ "b"))
        (ConfigValue.toContext (.mapping (.cons "b" (.str "abc") .nil))) {} :=
  conditional_operator_whitespace_insensitive "a" "b"
    (.ident ["a"]) (.ident ["b"])
    (ConfigValue.toContext (.mapping (.cons "b" (.str "abc") .nil))) {}
    (by decide) (by decide) (by decide) (by decide)
